import Mathlib

/-
Shallow embedding of the D-Bus integration core (src/nih/dbus.c): the binding
layer between the D-Bus library callbacks (watches, timeouts, filters, object
path vtables) and the libnih main loop.  C strings are modelled as lists of
bytes (List Nat, each < 256) where byte-level encoding matters, and as String
where only identity matters.  Machine integers are modelled as Nat/Int with
C truncating division written explicitly via Int.div.
-/

/-- DBusHandlerResult: the library-defined dispatch result enumeration. -/
inductive DBusHandlerResult where
  | handled
  | notYetHandled
  | needMemory
  deriving DecidableEq, Repr

/-- DBUS_INTERFACE_INTROSPECTABLE -/
def DBUS_INTERFACE_INTROSPECTABLE : String := "org.freedesktop.DBus.Introspectable"

/-- DBUS_INTERFACE_PROPERTIES -/
def DBUS_INTERFACE_PROPERTIES : String := "org.freedesktop.DBus.Properties"

/-- DBUS_INTERFACE_LOCAL -/
def DBUS_INTERFACE_LOCAL : String := "org.freedesktop.DBus.Local"

/-- DBUS_PATH_LOCAL -/
def DBUS_PATH_LOCAL : String := "/org/freedesktop/DBus/Local"

/-- D-Bus message kinds relevant to the embedded code paths. -/
inductive DMsgType where
  | methodCall
  | signalMsg
  | otherMsg
  deriving DecidableEq, Repr

/-- A D-Bus message header: type plus the optional interface, member and
path fields consulted by dbus_message_is_method_call / is_signal / has_path. -/
structure DMessage where
  mtype : DMsgType
  iface : Option String
  member : Option String
  path : Option String
  deriving DecidableEq, Repr

/-- dbus_message_is_method_call: a method call whose interface and member
fields are set and equal to the given names. -/
def dbus_message_is_method_call (m : DMessage) (i mem : String) : Bool :=
  (m.mtype == DMsgType.methodCall) && (m.iface == some i) && (m.member == some mem)

/-- dbus_message_is_signal: a signal whose interface and member fields are
set and equal to the given names. -/
def dbus_message_is_signal (m : DMessage) (i mem : String) : Bool :=
  (m.mtype == DMsgType.signalMsg) && (m.iface == some i) && (m.member == some mem)

/-- dbus_message_has_path: the message path field is set and equal. -/
def dbus_message_has_path (m : DMessage) (p : String) : Bool :=
  m.path == some p

/-
## Path encoding (nih_dbus_path, src/nih/dbus.c:1251-1315)

Bytes in [A-Za-z0-9] are copied; any other byte is emitted as an underscore
followed by sprintf "%02x" of the byte, i.e. its two lowercase hex digits.
-/

/-- The character test in nih_dbus_path's copy loop:
(c >= 'a' && c <= 'z') || (c >= 'A' && c <= 'Z') || (c >= '0' && c <= '9'). -/
def isPathAlnum (b : Nat) : Bool :=
  (97 ≤ b && b ≤ 122) || (65 ≤ b && b ≤ 90) || (48 ≤ b && b ≤ 57)

/-- One lowercase hexadecimal digit character, as produced by "%02x". -/
def lowerHexChar (n : Nat) : Nat :=
  if n < 10 then 48 + n else 87 + n

/-- Encoding of a single component byte: pass [A-Za-z0-9] through, otherwise
an underscore (0x5f) plus the two lowercase hex digits of the byte. -/
def encByte (b : Nat) : List Nat :=
  if isPathAlnum b then [b] else [95, lowerHexChar (b / 16), lowerHexChar (b % 16)]

/-- Sanitisation of one path component: each byte encoded in order. -/
def encodeComponent (c : List Nat) : List Nat :=
  c.flatMap encByte

/-- nih_dbus_path root components: the root copied verbatim, then for each
component a '/' (0x2f) separator followed by the sanitised component. -/
def nih_dbus_path (root : List Nat) (components : List (List Nat)) : List Nat :=
  root ++ components.flatMap (fun c => 47 :: encodeComponent c)

/-- Byte list of a Lean string literal (for concrete test vectors). -/
def strBytes (s : String) : List Nat :=
  s.data.map Char.toNat

/-- A byte that may appear in a sanitised component: [A-Za-z0-9_]. -/
def isPathWordByte (b : Nat) : Bool :=
  isPathAlnum b || b == 95

/-- The claim's regular expression ^/[A-Za-z0-9_]+$ over byte lists. -/
def matchesSlashWord (s : List Nat) : Prop :=
  ∃ t, s = 47 :: t ∧ t ≠ [] ∧ ∀ b ∈ t, isPathWordByte b = true

/-- A lowercase hexadecimal digit character class. -/
def isLowerHexDigit (b : Nat) : Bool :=
  (48 ≤ b && b ≤ 57) || (97 ≤ b && b ≤ 102)

/-- Numeric value of a lowercase hexadecimal digit character. -/
def lowerHexVal (b : Nat) : Nat :=
  if b ≤ 57 then b - 48 else b - 87

/-
## Timeout bridge (nih_dbus_add_timeout / nih_dbus_timeout_toggled,
src/nih/dbus.c:621-644 and 682-705)

Both compute the periodic timer period as (interval - 1) / 1000 + 1 in C int
arithmetic; C division truncates toward zero, which is Int.div.
-/

/-- timer->period = (interval - 1) / 1000 + 1 with C truncating division. -/
def nihDBusTimerPeriod (interval : Nat) : Int :=
  Int.tdiv ((interval : Int) - 1) 1000 + 1

/-- The host-loop periodic timer state attached to a D-Bus timeout. -/
structure TimerSt where
  period : Int
  due : Int
  inList : Bool
  deriving DecidableEq, Repr

/-- nih_dbus_add_timeout: creates the periodic timer with period
(interval - 1) / 1000 + 1 (nih_timer_add_periodic sets due = now + period),
then removes it from the timer list when the timeout is not enabled. -/
def nih_dbus_add_timeout (now : Int) (interval : Nat) (enabled : Bool) : TimerSt :=
  { period := nihDBusTimerPeriod interval
    due := now + nihDBusTimerPeriod interval
    inList := enabled }

/-- nih_dbus_timeout_toggled: re-lists the timer per the enabled flag, then
re-reads the interval and re-seats period and due. -/
def nih_dbus_timeout_toggled (now : Int) (interval : Nat) (enabled : Bool)
    (_t : TimerSt) : TimerSt :=
  { period := nihDBusTimerPeriod interval
    due := now + nihDBusTimerPeriod interval
    inList := enabled }

/-- Ceiling division on naturals, the spec's ceil(interval_ms / 1000). -/
def ceilDivNat (a b : Nat) : Nat :=
  (a + b - 1) / b

/-
## Connection setup and the disconnect filter
(nih_dbus_setup, src/nih/dbus.c:312-377;
 nih_dbus_connection_disconnected, src/nih/dbus.c:773-798)

The connection state records the main_loop_slot data (present iff setup has
run), how many times each hook set was installed, the ordered filter list
(each filter is nih_dbus_connection_disconnected closed over an optional
user handler, identified here by a Nat), and the reference count.
-/

/-- Observable state of one D-Bus connection as the binding manages it. -/
structure DConn where
  refs : Int
  hasMainLoop : Bool
  watchFns : Nat
  timeoutFns : Nat
  wakeupFns : Nat
  filters : List (Option Nat)
  deriving DecidableEq, Repr

/-- nih_dbus_setup (successful path): when the main_loop_slot data is already
set the connection is shared and only a new disconnect filter is appended;
otherwise the main loop function is stored and the watch, timeout and wakeup
hook sets installed, then the filter appended. -/
def nih_dbus_setup (handler : Option Nat) (c : DConn) : DConn :=
  if c.hasMainLoop then
    { c with filters := c.filters ++ [handler] }
  else
    { c with
      hasMainLoop := true
      watchFns := c.watchFns + 1
      timeoutFns := c.timeoutFns + 1
      wakeupFns := c.wakeupFns + 1
      filters := c.filters ++ [handler] }

/-- Events observable from disconnect-filter processing. -/
inductive ConnEv where
  | handlerCalled (h : Nat)
  | unref
  deriving DecidableEq, Repr

/-- nih_dbus_connection_disconnected: not the Disconnected signal on the
local interface, or not at the local path, returns NOT_YET_HANDLED with no
effect; otherwise the user handler (when present) is invoked, one connection
reference is released, and NOT_YET_HANDLED is returned so that the other
filters also run. -/
def nih_dbus_connection_disconnected (handler : Option Nat) (msg : DMessage)
    (c : DConn) : DBusHandlerResult × DConn × List ConnEv :=
  if ¬ dbus_message_is_signal msg DBUS_INTERFACE_LOCAL "Disconnected" then
    (DBusHandlerResult.notYetHandled, c, [])
  else if ¬ dbus_message_has_path msg DBUS_PATH_LOCAL then
    (DBusHandlerResult.notYetHandled, c, [])
  else
    (DBusHandlerResult.notYetHandled,
     { c with refs := c.refs - 1 },
     (match handler with
      | some h => [ConnEv.handlerCalled h]
      | none => []) ++ [ConnEv.unref])

/-- The D-Bus library's filter dispatch: each installed filter runs in
installation order until one returns something other than NOT_YET_HANDLED. -/
def runFilters (msg : DMessage) : List (Option Nat) → DConn → DConn × List ConnEv
  | [], c => (c, [])
  | h :: hs, c =>
    match nih_dbus_connection_disconnected h msg c with
    | (DBusHandlerResult.notYetHandled, c1, ev) =>
      match runFilters msg hs c1 with
      | (c2, ev2) => (c2, ev ++ ev2)
    | (_, c1, ev) => (c1, ev)

/-- Delivery of one message to the connection's filter chain. -/
def dispatchToFilters (msg : DMessage) (c : DConn) : DConn × List ConnEv :=
  runFilters msg c.filters c

/-- The Disconnected signal on the local interface at the local path. -/
def disconnectedMsg : DMessage :=
  { mtype := DMsgType.signalMsg
    iface := some DBUS_INTERFACE_LOCAL
    member := some "Disconnected"
    path := some DBUS_PATH_LOCAL }

/-
## Object registry data model (src/nih/dbus.c:839-952)

The interface table is a null-terminated array of interface descriptors,
each holding null-terminated arrays of method, signal and property
descriptors; marshallers are abstract (type parameter M interpreted by a
run function at dispatch time, mirroring the C function pointer).
-/

/-- NihDBusArg direction. -/
inductive NihDBusArgDir where
  | argIn
  | argOut
  deriving DecidableEq, Repr

/-- NihDBusArg: name, D-Bus type signature and direction. -/
structure NihDBusArg where
  name : String
  type : String
  dir : NihDBusArgDir
  deriving DecidableEq, Repr

/-- NihDBusMethod: name, marshaller (abstract) and argument array. -/
structure NihDBusMethod (M : Type) where
  name : String
  marshaller : M
  args : List NihDBusArg
  deriving DecidableEq, Repr

/-- NihDBusSignal: name and argument array. -/
structure NihDBusSignal where
  name : String
  args : List NihDBusArg
  deriving DecidableEq, Repr

/-- NihDBusProperty access. -/
inductive NihDBusAccess where
  | read
  | write
  | readwrite
  deriving DecidableEq, Repr

/-- NihDBusProperty: name, D-Bus type signature and access. -/
structure NihDBusProperty where
  name : String
  type : String
  access : NihDBusAccess
  deriving DecidableEq, Repr

/-- NihDBusInterface: name plus method, signal and property arrays. -/
structure NihDBusInterface (M : Type) where
  name : String
  methods : List (NihDBusMethod M)
  signals : List NihDBusSignal
  properties : List NihDBusProperty
  deriving DecidableEq, Repr

/-- NihDBusObject: path, connection (by identity), interface table and the
registered flag. -/
structure NihDBusObject (M : Type) where
  path : String
  conn : Nat
  interfaces : List (NihDBusInterface M)
  registered : Bool
  deriving DecidableEq, Repr

/-- NihDBusMessage: the per-message wrapper holding (connection, message). -/
structure NihDBusMessage where
  conn : Nat
  message : DMessage
  deriving DecidableEq, Repr

/-
## Introspection XML (nih_dbus_object_introspect, src/nih/dbus.c:1051-1230)

The reply is assembled by successive nih_strcat_sprintf calls.  Each call's
contribution is modelled as one segment; the reply string is the
concatenation of the rendered segments in order.
-/

/-- One appended piece of the introspection XML, one per nih_strcat /
nih_strcat_sprintf call in the assembly. -/
inductive XmlSeg where
  | doctype
  | nodeHeader (path : String)
  | introspectable
  | ifaceHeader (name : String)
  | methodHeader (name : String)
  | methodArg (name type dir : String)
  | methodClose
  | signalHeader (name : String)
  | signalArg (name type : String)
  | signalClose
  | property (name type access : String)
  | ifaceClose
  | propsBlock
  | childNode (name : String)
  | nodeClose
  deriving DecidableEq, Repr

/-- The direction attribute: "in" for NIH_DBUS_ARG_IN, otherwise "out". -/
def argDirStr (d : NihDBusArgDir) : String :=
  match d with
  | NihDBusArgDir.argIn => "in"
  | NihDBusArgDir.argOut => "out"

/-- The access attribute: "read", "write" or "readwrite". -/
def accessStr (a : NihDBusAccess) : String :=
  match a with
  | NihDBusAccess.read => "read"
  | NihDBusAccess.write => "write"
  | NihDBusAccess.readwrite => "readwrite"

/-- The literal string each segment contributes to the reply. -/
def renderSeg : XmlSeg → String
  | XmlSeg.doctype =>
    "<!DOCTYPE node PUBLIC \"-//freedesktop//DTD D-BUS Object Introspection 1.0//EN\"\n\"http://www.freedesktop.org/standards/dbus/1.0/introspect.dtd\">\n"
  | XmlSeg.nodeHeader p => "<node name=\"" ++ p ++ "\">\n"
  | XmlSeg.introspectable =>
    "  <interface name=\"" ++ DBUS_INTERFACE_INTROSPECTABLE ++ "\">\n" ++
    "    <method name=\"Introspect\">\n" ++
    "      <arg name=\"data\" type=\"s\" direction=\"out\"/>\n" ++
    "    </method>\n" ++
    "  </interface>\n"
  | XmlSeg.ifaceHeader n => "  <interface name=\"" ++ n ++ "\">\n"
  | XmlSeg.methodHeader n => "    <method name=\"" ++ n ++ "\">\n"
  | XmlSeg.methodArg n t d =>
    "      <arg name=\"" ++ n ++ "\" type=\"" ++ t ++ "\" direction=\"" ++ d ++ "\"/>\n"
  | XmlSeg.methodClose => "    </method>\n"
  | XmlSeg.signalHeader n => "    <signal name=\"" ++ n ++ "\">\n"
  | XmlSeg.signalArg n t =>
    "      <arg name=\"" ++ n ++ "\" type=\"" ++ t ++ "\"/>\n"
  | XmlSeg.signalClose => "    </signal>\n"
  | XmlSeg.property n t a =>
    "    <property name=\"" ++ n ++ "\" type=\"" ++ t ++ "\" access=\"" ++ a ++ "\"/>\n"
  | XmlSeg.ifaceClose => "  </interface>\n"
  | XmlSeg.propsBlock =>
    "  <interface name=\"" ++ DBUS_INTERFACE_PROPERTIES ++ "\">\n" ++
    "    <method name=\"Get\">\n" ++
    "      <arg name=\"interface_name\" type=\"s\" direction=\"in\"/>\n" ++
    "      <arg name=\"property_name\" type=\"s\" direction=\"in\"/>\n" ++
    "      <arg name=\"value\" type=\"v\" direction=\"out\"/>\n" ++
    "    </method>\n" ++
    "    <method name=\"Set\">\n" ++
    "      <arg name=\"interface_name\" type=\"s\" direction=\"in\"/>\n" ++
    "      <arg name=\"property_name\" type=\"s\" direction=\"in\"/>\n" ++
    "      <arg name=\"value\" type=\"v\" direction=\"in\"/>\n" ++
    "    </method>\n" ++
    "    <method name=\"GetAll\">\n" ++
    "      <arg name=\"interface_name\" type=\"s\" direction=\"in\"/>\n" ++
    "      <arg name=\"props\" type=\"a\x7bsv\x7d\" direction=\"out\"/>\n" ++
    "    </method>\n" ++
    "  </interface>\n"
  | XmlSeg.childNode n => "  <node name=\"" ++ n ++ "\"/>\n"
  | XmlSeg.nodeClose => "</node>\n"

/-- Segments contributed by one interface table entry, in append order:
header, methods (header, args, close), signals (header, args, close),
properties, close. -/
def interfaceSegs {M : Type} (i : NihDBusInterface M) : List XmlSeg :=
  [XmlSeg.ifaceHeader i.name]
  ++ i.methods.flatMap (fun m =>
       [XmlSeg.methodHeader m.name]
       ++ m.args.map (fun a => XmlSeg.methodArg a.name a.type (argDirStr a.dir))
       ++ [XmlSeg.methodClose])
  ++ i.signals.flatMap (fun s =>
       [XmlSeg.signalHeader s.name]
       ++ s.args.map (fun a => XmlSeg.signalArg a.name a.type)
       ++ [XmlSeg.signalClose])
  ++ i.properties.map (fun p =>
       XmlSeg.property p.name p.type (accessStr p.access))
  ++ [XmlSeg.ifaceClose]

/-- have_props: set inside the property loop, so true iff some interface in
the table declares at least one property. -/
def haveProps {M : Type} (obj : NihDBusObject M) : Bool :=
  obj.interfaces.any (fun i => !i.properties.isEmpty)

/-- The full introspection reply, as its ordered list of appended segments:
doctype, root node header, Introspectable interface, each table interface in
order, the Properties interface iff have_props, one child node entry per
immediately nested registered path, and the closing tag. -/
def introspectSegs {M : Type} (obj : NihDBusObject M) (children : List String) :
    List XmlSeg :=
  [XmlSeg.doctype, XmlSeg.nodeHeader obj.path, XmlSeg.introspectable]
  ++ obj.interfaces.flatMap interfaceSegs
  ++ (if haveProps obj then [XmlSeg.propsBlock] else [])
  ++ children.map XmlSeg.childNode
  ++ [XmlSeg.nodeClose]

/-- The introspection reply as the string the code builds. -/
def introspectXml {M : Type} (obj : NihDBusObject M) (children : List String) :
    String :=
  String.join ((introspectSegs obj children).map renderSeg)

/-
## Object teardown (nih_dbus_object_destroy, src/nih/dbus.c:918-930;
nih_dbus_object_unregister, src/nih/dbus.c:940-952)

nih_free runs the destructor and then deallocates;
dbus_connection_unregister_object_path invokes the vtable unregister
function.  The mutual recursion between the two paths is bounded by the
registered flag; a fuel parameter makes the definitions total.
-/

/-- Observable state of one registered object and its library-side entry. -/
structure ObjSt where
  registered : Bool
  pathRegistered : Bool
  unregCalls : Nat
  freeCalls : Nat
  freed : Bool
  deriving DecidableEq, Repr

mutual

/-- nih_dbus_object_destroy: when registered, clear the flag and unregister
the path with the library (which invokes the unregister callback). -/
def nih_dbus_object_destroy : Nat → ObjSt → ObjSt
  | 0, s => s
  | fuel + 1, s =>
    if s.registered then
      unregisterObjectPath fuel { s with registered := false }
    else
      s

/-- dbus_connection_unregister_object_path: removes the path from the
library's tree and invokes the vtable's unregister function. -/
def unregisterObjectPath : Nat → ObjSt → ObjSt
  | 0, s => s
  | fuel + 1, s =>
    nih_dbus_object_unregister fuel
      { s with pathRegistered := false, unregCalls := s.unregCalls + 1 }

/-- nih_dbus_object_unregister: when registered, clear the flag and free the
object. -/
def nih_dbus_object_unregister : Nat → ObjSt → ObjSt
  | 0, s => s
  | fuel + 1, s =>
    if s.registered then
      nihFreeObject fuel { s with registered := false }
    else
      s

/-- nih_free on the object: run the destructor, then deallocate. -/
def nihFreeObject : Nat → ObjSt → ObjSt
  | 0, s => s
  | fuel + 1, s =>
    let s1 := nih_dbus_object_destroy fuel s
    { s1 with freed := true, freeCalls := s1.freeCalls + 1 }

end

/-
## Introspection with allocation failures (src/nih/dbus.c:1051-1230)

Every fallible library call (nih_strdup, each nih_strcat/_sprintf,
dbus_connection_list_registered, dbus_message_new_method_return,
dbus_message_append_args, dbus_connection_send) consumes one answer from an
allocation oracle; a false answer takes the code to the error label, which
releases whatever of reply, children and xml is live.  The state tracks the
oracle position, the live resources and the sent reply.
-/

/-- The three resources the error label conditionally releases. -/
inductive IRes where
  | xml
  | children
  | reply
  deriving DecidableEq, Repr

/-- State threaded through the introspection handler. -/
structure IntroSt where
  n : Nat
  live : List IRes
  sent : Option (List XmlSeg)
  deriving DecidableEq, Repr

/-- Computation in the introspection handler: oracle and state in, Except
for the goto-error control flow. -/
def IntroM (α : Type) : Type :=
  (Nat → Bool) → IntroSt → Except Unit α × IntroSt

/-- Sequencing: goto error short-circuits the rest of the handler. -/
def IntroM.bindM {α β : Type} (x : IntroM α) (f : α → IntroM β) : IntroM β :=
  fun o s =>
    match x o s with
    | (Except.ok a, s1) => f a o s1
    | (Except.error e, s1) => (Except.error e, s1)

instance : Monad IntroM where
  pure a := fun _ s => (Except.ok a, s)
  bind := IntroM.bindM

/-- One fallible library call: consult the oracle and advance it. -/
def tryStep : IntroM Unit :=
  fun o s => (if o s.n then Except.ok () else Except.error (), { s with n := s.n + 1 })

/-- Record a successfully acquired resource. -/
def acqRes (r : IRes) : IntroM Unit :=
  fun _ s => (Except.ok (), { s with live := r :: s.live })

/-- Release a resource (no-op when it is not live). -/
def relRes (r : IRes) : IntroM Unit :=
  fun _ s => (Except.ok (), { s with live := s.live.erase r })

/-- One nih_strcat / nih_strcat_sprintf call: may fail; the xml string stays
live either way. -/
def strcatStep : IntroM Unit :=
  tryStep

/-- Record the reply as sent (dbus_connection_send succeeded). -/
def markSent (segs : List XmlSeg) : IntroM Unit :=
  fun _ s => (Except.ok (), { s with sent := some segs })

/-- Sequencing of a list of per-element computations (the C for loops). -/
def listIter {α : Type} (f : α → IntroM Unit) : List α → IntroM Unit
  | [] => pure ()
  | a :: rest => do
    f a
    listIter f rest

/-- Allocation attempts for one method: header, one per argument, close. -/
def methodAllocs {M : Type} (m : NihDBusMethod M) : IntroM Unit := do
  strcatStep
  listIter (fun _ => strcatStep) m.args
  strcatStep

/-- Allocation attempts for one signal: header, one per argument, close. -/
def signalAllocs (sg : NihDBusSignal) : IntroM Unit := do
  strcatStep
  listIter (fun _ => strcatStep) sg.args
  strcatStep

/-- Allocation attempts for one interface table entry. -/
def ifaceAllocs {M : Type} (i : NihDBusInterface M) : IntroM Unit := do
  strcatStep
  listIter methodAllocs i.methods
  listIter signalAllocs i.signals
  listIter (fun _ => strcatStep) i.properties
  strcatStep

/-- The body of nih_dbus_object_introspect up to the return, one tryStep per
fallible library call, in source order. -/
def introspectBody {M : Type} (obj : NihDBusObject M) (children : List String) :
    IntroM Unit := do
  tryStep
  acqRes IRes.xml
  strcatStep
  strcatStep
  listIter ifaceAllocs obj.interfaces
  if haveProps obj then strcatStep else pure ()
  tryStep
  acqRes IRes.children
  listIter (fun _ => strcatStep) children
  strcatStep
  relRes IRes.children
  tryStep
  acqRes IRes.reply
  tryStep
  tryStep
  markSent (introspectSegs obj children)
  relRes IRes.reply
  relRes IRes.xml

/-- The error label: unreference the reply, free the child list and the xml
string, each only when live. -/
def introCleanup (s : IntroSt) : IntroSt :=
  { s with live := ((s.live.erase IRes.reply).erase IRes.children).erase IRes.xml }

/-- nih_dbus_object_introspect: run the body; on the error path clean up and
return NEED_MEMORY, otherwise HANDLED. -/
def nih_dbus_object_introspect {M : Type} (o : Nat → Bool)
    (obj : NihDBusObject M) (children : List String) :
    DBusHandlerResult × IntroSt :=
  match introspectBody obj children o { n := 0, live := [], sent := none } with
  | (Except.ok _, s) => (DBusHandlerResult.handled, s)
  | (Except.error _, s) => (DBusHandlerResult.needMemory, introCleanup s)

/-
## Message dispatch (nih_dbus_object_message, src/nih/dbus.c:968-1037)
-/

/-- Events observable from object message dispatch. -/
inductive ObjEv where
  | msgRef (m : DMessage)
  | marshal (iface meth : String) (w : NihDBusMessage)
  | msgUnref (m : DMessage)
  | freeWrapper (w : NihDBusMessage)
  | sentIntrospect (segs : List XmlSeg)
  deriving DecidableEq, Repr

/-- The inner method loop: first method of this interface whose name (with
the interface name) matches the message as a method call. -/
def findMethodIn {M : Type} (msg : DMessage) (iname : String) :
    List (NihDBusMethod M) → Option (NihDBusMethod M)
  | [] => none
  | m :: rest =>
    if dbus_message_is_method_call msg iname m.name then some m
    else findMethodIn msg iname rest

/-- The outer interface loop: first (interface, method) pair in table order
matching the message. -/
def firstMatch {M : Type} (msg : DMessage) :
    List (NihDBusInterface M) → Option (String × NihDBusMethod M)
  | [] => none
  | i :: rest =>
    match findMethodIn msg i.name i.methods with
    | some m => some (i.name, m)
    | none => firstMatch msg rest

/-- The marshaller invocation once a method matches: allocate the wrapper
(NEED_MEMORY on failure), reference the message, run the marshaller, then
unreference the message and free the wrapper, returning the marshaller's
result. -/
def invokeMarshaller {M : Type} (run : M → NihDBusMessage → DBusHandlerResult)
    (allocOk : Bool) (conn : Nat) (msg : DMessage)
    (iname : String) (m : NihDBusMethod M) : DBusHandlerResult × List ObjEv :=
  if allocOk then
    let w : NihDBusMessage := { conn := conn, message := msg }
    (run m.marshaller w,
     [ObjEv.msgRef msg, ObjEv.marshal iname m.name w,
      ObjEv.msgUnref msg, ObjEv.freeWrapper w])
  else
    (DBusHandlerResult.needMemory, [])

/-- The nested dispatch loops over the interface table, as in the source. -/
def dispatchTable {M : Type} (run : M → NihDBusMessage → DBusHandlerResult)
    (allocOk : Bool) (conn : Nat) (msg : DMessage) :
    List (NihDBusInterface M) → DBusHandlerResult × List ObjEv
  | [] => (DBusHandlerResult.notYetHandled, [])
  | i :: rest =>
    match findMethodIn msg i.name i.methods with
    | some m => invokeMarshaller run allocOk conn msg i.name m
    | none => dispatchTable run allocOk conn msg rest

/-- nih_dbus_object_message: Introspect handled first, then the Properties
Get/Set/GetAll stubs, then the interface table, else NOT_YET_HANDLED. -/
def nih_dbus_object_message {M : Type} (run : M → NihDBusMessage → DBusHandlerResult)
    (o : Nat → Bool) (allocOk : Bool) (obj : NihDBusObject M)
    (children : List String) (msg : DMessage) : DBusHandlerResult × List ObjEv :=
  if dbus_message_is_method_call msg DBUS_INTERFACE_INTROSPECTABLE "Introspect" then
    match nih_dbus_object_introspect o obj children with
    | (r, st) =>
      (r, match st.sent with
          | some segs => [ObjEv.sentIntrospect segs]
          | none => [])
  else if dbus_message_is_method_call msg DBUS_INTERFACE_PROPERTIES "Get" then
    (DBusHandlerResult.notYetHandled, [])
  else if dbus_message_is_method_call msg DBUS_INTERFACE_PROPERTIES "Set" then
    (DBusHandlerResult.notYetHandled, [])
  else if dbus_message_is_method_call msg DBUS_INTERFACE_PROPERTIES "GetAll" then
    (DBusHandlerResult.notYetHandled, [])
  else
    dispatchTable run allocOk obj.conn msg obj.interfaces

/-
## Watch bridge (nih_dbus_add_watch, src/nih/dbus.c:489-520;
nih_dbus_remove_watch, 531-548; nih_dbus_watch_toggled, 559-575)

Each DBusWatch carries in its data member the NihIoWatch created at add time
(modelled by an id); nih_io_watches is the global active list.  libnih's
nih_list_add first cuts the entry from any list it is in and then appends,
and nih_list_remove cuts it; on the active list these are erase-then-append
and erase.
-/

/-- NihIoEvents bit flags: NIH_IO_READ = 1, NIH_IO_WRITE = 2,
NIH_IO_EXCEPT = 4; EXCEPT is always observed. -/
def nihWatchEvents (readable writable : Bool) : Nat :=
  4 + (if readable then 1 else 0) + (if writable then 2 else 0)

/-- One DBusWatch as the bridge sees it: the library's enabled flag and the
data member holding the NihIoWatch (none before add / after remove). -/
structure WatchRec where
  enabled : Bool
  events : Nat
  data : Option Nat
  deriving DecidableEq, Repr

/-- The bridge-wide state: all watches, the nih_io_watches active list, and
the allocator counter for NihIoWatch identities. -/
structure WatchSys where
  watches : List WatchRec
  active : List Nat
  nextId : Nat
  deriving DecidableEq, Repr

/-- nih_list_add: cut the entry from its current list, then append. -/
def nihListAdd (l : List Nat) (x : Nat) : List Nat :=
  l.erase x ++ [x]

/-- nih_list_remove: cut the entry. -/
def nihListRemove (l : List Nat) (x : Nat) : List Nat :=
  l.erase x

/-- nih_dbus_add_watch: create an NihIoWatch (appended to the active list)
with EXCEPT plus the translated READABLE/WRITABLE flags, store it in the
watch's data member, and take it back off the active list when the watch is
not enabled. -/
def nih_dbus_add_watch (readable writable enabled : Bool) (s : WatchSys) :
    WatchSys :=
  let id := s.nextId
  let a1 := s.active ++ [id]
  { watches := s.watches ++
      [{ enabled := enabled, events := nihWatchEvents readable writable,
         data := some id }]
    active := if enabled then a1 else nihListRemove a1 id
    nextId := id + 1 }

/-- nih_dbus_watch_toggled on watch i, whose enabled flag the library has
just set to b: re-list or de-list the stored NihIoWatch accordingly.  A
watch with no data would fail the source's nih_assert; modelled as a no-op
since valid traces never do it. -/
def nih_dbus_watch_toggled (i : Nat) (b : Bool) (s : WatchSys) : WatchSys :=
  match s.watches.get? i with
  | none => s
  | some rec =>
    match rec.data with
    | none => s
    | some id =>
      { s with
        watches := s.watches.set i { rec with enabled := b }
        active := if b then nihListAdd s.active id
                  else nihListRemove s.active id }

/-- nih_dbus_remove_watch on watch i: take the NihIoWatch off the active
list and clear the data member (the library then frees it). -/
def nih_dbus_remove_watch (i : Nat) (s : WatchSys) : WatchSys :=
  match s.watches.get? i with
  | none => s
  | some rec =>
    match rec.data with
    | none => s
    | some id =>
      { s with
        watches := s.watches.set i { rec with data := none }
        active := nihListRemove s.active id }

/-- The watch lifecycle callbacks the D-Bus library may drive. -/
inductive WatchOp where
  | add (readable writable enabled : Bool)
  | toggle (i : Nat) (enabled : Bool)
  | remove (i : Nat)
  deriving DecidableEq, Repr

/-- One callback step. -/
def watchStep (s : WatchSys) : WatchOp → WatchSys
  | WatchOp.add r w en => nih_dbus_add_watch r w en s
  | WatchOp.toggle i en => nih_dbus_watch_toggled i en s
  | WatchOp.remove i => nih_dbus_remove_watch i s

/-- A whole callback sequence, oldest first. -/
def runWatchOps (ops : List WatchOp) (s : WatchSys) : WatchSys :=
  ops.foldl watchStep s

/-- The bridge state before any callback. -/
def initWatchSys : WatchSys :=
  { watches := [], active := [], nextId := 0 }

/-- The bridge invariant: the active list has no duplicates, every io-watch
id was allocated, distinct watches hold distinct io watches, every live
watch's io watch is in the active list exactly once when enabled and not at
all when disabled, and everything active belongs to some live watch. -/
def WInv (s : WatchSys) : Prop :=
  s.active.Nodup
  ∧ (∀ i rec id, s.watches.get? i = some rec → rec.data = some id → id < s.nextId)
  ∧ (∀ i j ri rj id, s.watches.get? i = some ri → s.watches.get? j = some rj →
      ri.data = some id → rj.data = some id → i = j)
  ∧ (∀ i rec id, s.watches.get? i = some rec → rec.data = some id →
      s.active.count id = if rec.enabled then 1 else 0)
  ∧ (∀ id ∈ s.active, ∃ i rec, s.watches.get? i = some rec ∧ rec.data = some id)


/-- Specification of an introspection-body outcome: on success nothing is
left live and the reply was recorded; on the error path nothing survives the
cleanup and nothing was sent. -/
def IntroDisj (segs : List XmlSeg) (res : Except Unit Unit × IntroSt) : Prop :=
  (∃ s1, res = (Except.ok (), s1) ∧ s1.live = [] ∧ s1.sent = some segs)
  ∨ (∃ s1, res = (Except.error (), s1)
      ∧ (introCleanup s1).live = [] ∧ s1.sent = none)

/-- Test fixture: a method with no arguments. -/
def exampleMethod : NihDBusMethod Unit :=
  { name := "Frob", marshaller := (), args := [] }

/-- Test fixture: one interface with a single method and no properties. -/
def exampleInterface : NihDBusInterface Unit :=
  { name := "com.example.Test", methods := [exampleMethod], signals := [],
    properties := [] }

/-- Test fixture: an object exporting the example interface. -/
def exampleObj : NihDBusObject Unit :=
  { path := "/com/example", conn := 3, interfaces := [exampleInterface],
    registered := true }

/-- Test fixture: a marshaller interpretation returning HANDLED. -/
def exampleRun : Unit → NihDBusMessage → DBusHandlerResult :=
  fun _ _ => DBusHandlerResult.handled

/-- Test fixture: a method call for the example method. -/
def exampleCall : DMessage :=
  { mtype := DMsgType.methodCall, iface := some "com.example.Test",
    member := some "Frob", path := some "/com/example" }

/-- A computation that never touches the live-resource list or the sent
reply (the pure string appends). -/
def InertM (c : IntroM Unit) : Prop :=
  ∀ o s, ((c o s).2.live = s.live ∧ (c o s).2.sent = s.sent)

/-- A computation that succeeds whenever every allocation succeeds. -/
def TotalM (c : IntroM Unit) : Prop :=
  ∀ o s, (∀ k, o k = true) → (c o s).1 = Except.ok ()

/-
# Theorems
-/

/-- Every value below 16 renders as a lowercase hex digit whose value reads
back, and which lies in the path word class. -/
theorem lowerHexChar_spec : ∀ n < 16,
    isLowerHexDigit (lowerHexChar n) = true
    ∧ lowerHexVal (lowerHexChar n) = n
    ∧ isPathWordByte (lowerHexChar n) = true := by
  decide

/-- Each byte of an encoded component is in [A-Za-z0-9_]. -/
theorem encByte_word (c : Nat) (hc : c < 256) :
    ∀ b ∈ encByte c, isPathWordByte b = true := by
  intro b hb
  unfold encByte at hb
  by_cases h : isPathAlnum c = true
  · simp [h] at hb
    subst hb
    simp [isPathWordByte, h]
  · simp [h] at hb
    have h16 : c / 16 < 16 := by omega
    have h16b : c % 16 < 16 := by omega
    rcases hb with hb | hb | hb
    · subst hb; decide
    · subst hb; exact (lowerHexChar_spec _ h16).2.2
    · subst hb; exact (lowerHexChar_spec _ h16b).2.2

/-- An encoded byte is never the empty list. -/
theorem encByte_ne_nil (c : Nat) : encByte c ≠ [] := by
  unfold encByte
  by_cases h : isPathAlnum c = true <;> simp [h]

/-- C1: each component byte in [A-Za-z0-9] is copied through unchanged and
every other byte becomes an underscore followed by exactly its two lowercase
hexadecimal digits; consequently for a non-empty component x the output of
make_path(root, x) is the root followed by a block matching ^/[A-Za-z0-9_]+$
(and matches that expression outright for an empty root), and the three
boundary examples hold. -/
theorem nih_dbus_path_sanitises :
    (∀ b : Nat, isPathAlnum b = true → encByte b = [b])
    ∧ (∀ b : Nat, b < 256 → isPathAlnum b = false →
        ∃ d1 d2, encByte b = [95, d1, d2]
          ∧ isLowerHexDigit d1 = true ∧ isLowerHexDigit d2 = true
          ∧ lowerHexVal d1 * 16 + lowerHexVal d2 = b)
    ∧ (∀ root x, x ≠ [] → (∀ b ∈ x, b < 256) →
        ∃ t, nih_dbus_path root [x] = root ++ (47 :: t) ∧ t ≠ []
          ∧ ∀ b ∈ t, isPathWordByte b = true)
    ∧ (∀ x, x ≠ [] → (∀ b ∈ x, b < 256) →
        matchesSlashWord (nih_dbus_path [] [x]))
    ∧ nih_dbus_path (strBytes "/com/example") [strBytes "foo.bar"]
        = strBytes "/com/example/foo_2ebar"
    ∧ nih_dbus_path (strBytes "/x") [strBytes "a/b"] = strBytes "/x/a_2fb"
    ∧ nih_dbus_path (strBytes "/x") [strBytes "abc"] = strBytes "/x/abc" := by
  have enc_nonnil : ∀ x : List Nat, x ≠ [] → encodeComponent x ≠ [] := by
    intro x hx
    match x with
    | [] => exact absurd rfl hx
    | c :: rest =>
      simp only [encodeComponent, List.flatMap_cons]
      intro hcontra
      rcases List.append_eq_nil.mp hcontra with ⟨h1, _⟩
      exact encByte_ne_nil c h1
  have block : ∀ x : List Nat, x ≠ [] → (∀ b ∈ x, b < 256) →
      ∃ t, (47 :: encodeComponent x) = 47 :: t ∧ t ≠ []
        ∧ ∀ b ∈ t, isPathWordByte b = true := by
    intro x hx hb
    refine ⟨encodeComponent x, rfl, enc_nonnil x hx, ?_⟩
    intro b hbmem
    simp only [encodeComponent, List.mem_flatMap] at hbmem
    rcases hbmem with ⟨c, hc, hmem⟩
    exact encByte_word c (hb c hc) b hmem
  refine ⟨?_, ?_, ?_, ?_, by decide, by decide, by decide⟩
  · intro b h
    simp [encByte, h]
  · intro b hb h
    refine ⟨lowerHexChar (b / 16), lowerHexChar (b % 16), by simp [encByte, h], ?_, ?_, ?_⟩
    · exact (lowerHexChar_spec _ (by omega)).1
    · exact (lowerHexChar_spec _ (by omega)).1
    · have h1 := (lowerHexChar_spec (b / 16) (by omega)).2.1
      have h2 := (lowerHexChar_spec (b % 16) (by omega)).2.1
      rw [h1, h2]
      omega
  · intro root x hx hb
    rcases block x hx hb with ⟨t, ht, htne, htw⟩
    refine ⟨t, ?_, htne, htw⟩
    simp only [nih_dbus_path, List.flatMap_cons, List.flatMap_nil, List.append_nil]
    rw [ht]
  · intro x hx hb
    rcases block x hx hb with ⟨t, ht, htne, htw⟩
    refine ⟨t, ?_, htne, htw⟩
    simp only [nih_dbus_path, List.flatMap_cons, List.flatMap_nil, List.append_nil,
      List.nil_append]
    rw [ht]

/-- Witness for the sanitisation theorem at byte 0x2e and component "a". -/
theorem nih_dbus_path_sanitises_witness :
    ∃ d1 d2, encByte 46 = [95, d1, d2]
      ∧ isLowerHexDigit d1 = true ∧ isLowerHexDigit d2 = true
      ∧ lowerHexVal d1 * 16 + lowerHexVal d2 = 46 :=
  nih_dbus_path_sanitises.2.1 46 (by decide) (by decide)

/-- C10: the root is copied into the output verbatim with no sanitisation,
encoding applies only to the components, and a call with zero components
returns the root exactly, with no trailing separator. -/
theorem nih_dbus_path_root_verbatim :
    (∀ root, nih_dbus_path root [] = root)
    ∧ (∀ root comps, nih_dbus_path root comps = root ++ nih_dbus_path [] comps)
    ∧ nih_dbus_path (strBytes "/a.b!") [] = strBytes "/a.b!"
    ∧ nih_dbus_path (strBytes "/a.b!") [strBytes "c"] = strBytes "/a.b!/c" := by
  refine ⟨?_, ?_, by decide, by decide⟩
  · intro root
    simp [nih_dbus_path]
  · intro root comps
    simp [nih_dbus_path]

/-- C2 counterexample: a 0 ms timeout gets period 1, but ceil(0 / 1000) = 0,
so the claimed formula period = ceil(interval_ms / 1000) fails at 0. -/
theorem nih_dbus_timeout_zero_counterexample :
    (nih_dbus_add_timeout 0 0 true).period ≠ ((ceilDivNat 0 1000 : Nat) : Int) := by
  decide

/-- C2 (amended): both the add and the toggle callback set the period to
(interval - 1) / 1000 + 1 under C truncating division, which equals
ceil(interval_ms / 1000) for every interval >= 1 and equals 1 for a 0 ms
interval; concretely 250 ms -> 1, 1500 ms -> 2, 0 ms -> 1, and a re-toggle
with 2500 ms updates the period to 3 (and re-seats due = now + period). -/
theorem nih_dbus_timeout_period_spec :
    (∀ now interval enabled t,
        (nih_dbus_add_timeout now interval enabled).period = nihDBusTimerPeriod interval
        ∧ (nih_dbus_timeout_toggled now interval enabled t).period = nihDBusTimerPeriod interval
        ∧ (nih_dbus_timeout_toggled now interval enabled t).due
            = now + (nih_dbus_timeout_toggled now interval enabled t).period)
    ∧ (∀ interval : Nat, 1 ≤ interval →
        nihDBusTimerPeriod interval = ((ceilDivNat interval 1000 : Nat) : Int))
    ∧ nihDBusTimerPeriod 0 = 1
    ∧ (nih_dbus_add_timeout 0 250 true).period = 1
    ∧ (nih_dbus_add_timeout 0 1500 true).period = 2
    ∧ (nih_dbus_add_timeout 0 0 true).period = 1
    ∧ (nih_dbus_timeout_toggled 0 2500 true (nih_dbus_add_timeout 0 250 true)).period = 3 := by
  refine ⟨?_, ?_, by decide, by decide, by decide, by decide, by decide⟩
  · intro now interval enabled t
    exact ⟨rfl, rfl, rfl⟩
  · intro interval h1
    obtain ⟨k, rfl⟩ : ∃ k, interval = k + 1 := ⟨interval - 1, by omega⟩
    have htd : nihDBusTimerPeriod (k + 1) = ((k / 1000 : Nat) : Int) + 1 := by
      unfold nihDBusTimerPeriod
      have : ((k + 1 : Nat) : Int) - 1 = ((k : Nat) : Int) := by push_cast; ring
      rw [this]
      norm_num [Int.tdiv]
    have hceil : ceilDivNat (k + 1) 1000 = k / 1000 + 1 := by
      unfold ceilDivNat
      have : k + 1 + 1000 - 1 = k + 1000 := by omega
      rw [this, Nat.add_div_right k (by omega)]
    rw [htd, hceil]
    push_cast
    ring

/-- Witness for the amended timeout-period theorem at 1500 ms. -/
theorem nih_dbus_timeout_period_spec_witness :
    nihDBusTimerPeriod 1500 = ((ceilDivNat 1500 1000 : Nat) : Int) :=
  nih_dbus_timeout_period_spec.2.1 1500 (by decide)

/-- C8: releasing a registered object clears the flag and performs exactly
one library unregistration (whose callback, seeing the flag already clear,
does not free again); the library's unregister callback on a registered
object clears the flag and frees the object exactly once (whose destructor,
seeing the flag already clear, does not unregister again); and either
operation on an object whose registered flag is already false is a no-op. -/
theorem nih_dbus_object_teardown_idempotent (s : ObjSt) :
    (s.registered = true →
      nihFreeObject 4 s =
        { registered := false, pathRegistered := false,
          unregCalls := s.unregCalls + 1, freeCalls := s.freeCalls + 1,
          freed := true })
    ∧ (s.registered = true →
      nih_dbus_object_unregister 4 s =
        { s with registered := false, freeCalls := s.freeCalls + 1, freed := true })
    ∧ (s.registered = false → nih_dbus_object_destroy 4 s = s)
    ∧ (s.registered = false → nih_dbus_object_unregister 4 s = s) := by
  refine ⟨?_, ?_, ?_, ?_⟩ <;> intro h <;>
    simp [nihFreeObject, nih_dbus_object_destroy, unregisterObjectPath,
      nih_dbus_object_unregister, h]

/-- Witness for the teardown theorem on a freshly registered object. -/
theorem nih_dbus_object_teardown_idempotent_witness :
    nihFreeObject 4
        { registered := true, pathRegistered := true, unregCalls := 0,
          freeCalls := 0, freed := false } =
      { registered := false, pathRegistered := false, unregCalls := 1,
        freeCalls := 1, freed := true } :=
  (nih_dbus_object_teardown_idempotent _).1 rfl

/-- The Disconnected test message satisfies both filter guards. -/
theorem disconnectedMsg_matches :
    dbus_message_is_signal disconnectedMsg DBUS_INTERFACE_LOCAL "Disconnected" = true
    ∧ dbus_message_has_path disconnectedMsg DBUS_PATH_LOCAL = true := by
  constructor <;> rfl

/-- On the matching Disconnected signal the filter calls the handler (when
set), releases one reference and lies with NOT_YET_HANDLED. -/
theorem connection_disconnected_match (handler : Option Nat) (msg : DMessage)
    (c : DConn)
    (hs : dbus_message_is_signal msg DBUS_INTERFACE_LOCAL "Disconnected" = true)
    (hp : dbus_message_has_path msg DBUS_PATH_LOCAL = true) :
    nih_dbus_connection_disconnected handler msg c =
      (DBusHandlerResult.notYetHandled, { c with refs := c.refs - 1 },
       (match handler with
        | some i => [ConnEv.handlerCalled i]
        | none => []) ++ [ConnEv.unref]) := by
  simp [nih_dbus_connection_disconnected, hs, hp]

/-- Running the filter chain on the Disconnected signal releases one
reference per installed filter and emits one handler call per filter whose
handler is set. -/
theorem runFilters_disconnected (hs : List (Option Nat)) (c : DConn) :
    (runFilters disconnectedMsg hs c).1 =
      { c with refs := c.refs - hs.length }
    ∧ (runFilters disconnectedMsg hs c).2 =
      hs.flatMap (fun h =>
        (match h with
         | some i => [ConnEv.handlerCalled i]
         | none => []) ++ [ConnEv.unref]) := by
  induction hs generalizing c with
  | nil =>
    constructor
    · show c = _
      simp
    · rfl
  | cons h rest ih =>
    have hmatch := connection_disconnected_match h disconnectedMsg c
      disconnectedMsg_matches.1 disconnectedMsg_matches.2
    have h1 := (ih { c with refs := c.refs - 1 }).1
    have h2 := (ih { c with refs := c.refs - 1 }).2
    constructor
    · show (runFilters disconnectedMsg (h :: rest) c).1 = _
      simp only [runFilters, hmatch, h1, List.length_cons]
      congr 1
      push_cast
      ring
    · show (runFilters disconnectedMsg (h :: rest) c).2 = _
      simp only [runFilters, hmatch, h2, List.flatMap_cons]

/-- Fields of a connection after repeated shared setups. -/
theorem setup_shared_iterate (handler : Option Nat) (m : Nat) (c : DConn)
    (hc : c.hasMainLoop = true) :
    ((nih_dbus_setup handler)^[m] c) =
      { c with filters := c.filters ++ List.replicate m handler } := by
  induction m generalizing c with
  | zero => simp
  | succ k ih =>
    rw [Function.iterate_succ_apply]
    have hstep : nih_dbus_setup handler c = { c with filters := c.filters ++ [handler] } := by
      simp [nih_dbus_setup, hc]
    rw [hstep, ih { c with filters := c.filters ++ [handler] } hc]
    simp [List.replicate_succ]

/-- C5: n >= 1 setup calls on a fresh connection install the main-loop
binding and the watch, timeout and wakeup hook sets exactly once (on the
first call), install exactly n disconnect filters, and a subsequent
Disconnected delivery releases exactly n references. -/
theorem nih_dbus_setup_n_times (n : Nat) (handler : Option Nat) (c0 : DConn)
    (hml : c0.hasMainLoop = false) (hf : c0.filters = []) (hn : 1 ≤ n) :
    ((nih_dbus_setup handler)^[n] c0).hasMainLoop = true
    ∧ ((nih_dbus_setup handler)^[n] c0).watchFns = c0.watchFns + 1
    ∧ ((nih_dbus_setup handler)^[n] c0).timeoutFns = c0.timeoutFns + 1
    ∧ ((nih_dbus_setup handler)^[n] c0).wakeupFns = c0.wakeupFns + 1
    ∧ ((nih_dbus_setup handler)^[n] c0).filters.length = n
    ∧ (dispatchToFilters disconnectedMsg ((nih_dbus_setup handler)^[n] c0)).1.refs
        = ((nih_dbus_setup handler)^[n] c0).refs - n := by
  obtain ⟨m, rfl⟩ : ∃ m, n = m + 1 := ⟨n - 1, by omega⟩
  have hstep : nih_dbus_setup handler c0 =
      { c0 with
        hasMainLoop := true
        watchFns := c0.watchFns + 1
        timeoutFns := c0.timeoutFns + 1
        wakeupFns := c0.wakeupFns + 1
        filters := c0.filters ++ [handler] } := by
    simp [nih_dbus_setup, hml]
  have hiter : ((nih_dbus_setup handler)^[m + 1] c0) =
      { c0 with
        hasMainLoop := true
        watchFns := c0.watchFns + 1
        timeoutFns := c0.timeoutFns + 1
        wakeupFns := c0.wakeupFns + 1
        filters := (c0.filters ++ [handler]) ++ List.replicate m handler } := by
    rw [Function.iterate_succ_apply, hstep, setup_shared_iterate handler m _ rfl]
  rw [hiter]
  refine ⟨rfl, rfl, rfl, rfl, by simp [hf], ?_⟩
  have hrun := runFilters_disconnected
    ((c0.filters ++ [handler]) ++ List.replicate m handler)
    { c0 with
      hasMainLoop := true
      watchFns := c0.watchFns + 1
      timeoutFns := c0.timeoutFns + 1
      wakeupFns := c0.wakeupFns + 1
      filters := (c0.filters ++ [handler]) ++ List.replicate m handler }
  unfold dispatchToFilters
  rw [hrun.1]
  simp [hf]

/-- Witness for the setup theorem: two setups on a fresh connection. -/
theorem nih_dbus_setup_n_times_witness :
    ((nih_dbus_setup (some 7))^[2]
        { refs := 5, hasMainLoop := false, watchFns := 0, timeoutFns := 0,
          wakeupFns := 0, filters := [] }).watchFns = 0 + 1
    ∧ ((nih_dbus_setup (some 7))^[2]
        { refs := 5, hasMainLoop := false, watchFns := 0, timeoutFns := 0,
          wakeupFns := 0, filters := [] }).filters.length = 2 :=
  ⟨(nih_dbus_setup_n_times 2 (some 7) _ rfl rfl (by decide)).2.1,
   (nih_dbus_setup_n_times 2 (some 7) _ rfl rfl (by decide)).2.2.2.2.1⟩

/-- C6: the disconnect filter invokes the user handler and releases exactly
one reference on the Disconnected signal at the local path, returning
NOT_YET_HANDLED so later filters also fire; any other message is left
untouched; and after two setups an injected Disconnected signal runs the
handler twice and drops the reference count by exactly 2. -/
theorem nih_dbus_connection_disconnected_spec (handler : Option Nat)
    (msg : DMessage) (c : DConn) :
    (dbus_message_is_signal msg DBUS_INTERFACE_LOCAL "Disconnected" = true →
     dbus_message_has_path msg DBUS_PATH_LOCAL = true →
      nih_dbus_connection_disconnected handler msg c =
        (DBusHandlerResult.notYetHandled, { c with refs := c.refs - 1 },
         (match handler with
          | some i => [ConnEv.handlerCalled i]
          | none => []) ++ [ConnEv.unref]))
    ∧ (dbus_message_is_signal msg DBUS_INTERFACE_LOCAL "Disconnected" = false ∨
       dbus_message_has_path msg DBUS_PATH_LOCAL = false →
      nih_dbus_connection_disconnected handler msg c =
        (DBusHandlerResult.notYetHandled, c, []))
    ∧ ((dispatchToFilters disconnectedMsg
          ((nih_dbus_setup (some 7))^[2]
            { refs := 5, hasMainLoop := false, watchFns := 0, timeoutFns := 0,
              wakeupFns := 0, filters := [] })).1.refs = 3
       ∧ (dispatchToFilters disconnectedMsg
          ((nih_dbus_setup (some 7))^[2]
            { refs := 5, hasMainLoop := false, watchFns := 0, timeoutFns := 0,
              wakeupFns := 0, filters := [] })).2 =
          [ConnEv.handlerCalled 7, ConnEv.unref,
           ConnEv.handlerCalled 7, ConnEv.unref]) := by
  refine ⟨fun hs hp => connection_disconnected_match handler msg c hs hp, ?_, ?_, ?_⟩
  · intro hcase
    rcases hcase with hcase | hcase <;>
      simp [nih_dbus_connection_disconnected, hcase]
  · decide
  · decide

/-- Witness for the disconnect-filter theorem on a non-matching message. -/
theorem nih_dbus_connection_disconnected_spec_witness :
    nih_dbus_connection_disconnected (some 3)
        { mtype := DMsgType.methodCall, iface := some "a", member := some "b",
          path := none }
        { refs := 1, hasMainLoop := true, watchFns := 1, timeoutFns := 1,
          wakeupFns := 1, filters := [some 3] } =
      (DBusHandlerResult.notYetHandled,
       { refs := 1, hasMainLoop := true, watchFns := 1, timeoutFns := 1,
         wakeupFns := 1, filters := [some 3] }, []) :=
  (nih_dbus_connection_disconnected_spec (some 3) _ _).2.1 (Or.inl (by decide))

/-- The Properties block is never one of the pieces a table interface
contributes. -/
theorem propsBlock_not_mem_interfaceSegs {M : Type} (i : NihDBusInterface M) :
    XmlSeg.propsBlock ∉ interfaceSegs i := by
  simp [interfaceSegs]

/-- have_props is true exactly when some table interface declares a
property. -/
theorem haveProps_iff {M : Type} (obj : NihDBusObject M) :
    haveProps obj = true ↔ ∃ i ∈ obj.interfaces, i.properties ≠ [] := by
  simp [haveProps, List.isEmpty_iff]

/-- C4: the introspection reply contains the standard Properties interface
block iff at least one property is declared somewhere in the object's
interface table, while the Introspectable interface block is always present;
the reply string is the concatenation of the rendered segments. -/
theorem introspect_properties_iff {M : Type} (obj : NihDBusObject M)
    (children : List String) :
    (XmlSeg.propsBlock ∈ introspectSegs obj children
      ↔ ∃ i ∈ obj.interfaces, i.properties ≠ [])
    ∧ XmlSeg.introspectable ∈ introspectSegs obj children
    ∧ introspectXml obj children
        = String.join ((introspectSegs obj children).map renderSeg) := by
  refine ⟨?_, ?_, rfl⟩
  · constructor
    · intro hmem
      by_cases hp : haveProps obj = true
      · exact (haveProps_iff obj).mp hp
      · exfalso
        simp [introspectSegs, hp, propsBlock_not_mem_interfaceSegs] at hmem
    · intro hex
      have hp : haveProps obj = true := (haveProps_iff obj).mpr hex
      simp [introspectSegs, hp]
  · simp [introspectSegs]

/-- Unfolding of sequencing in IntroM. -/
theorem IntroM_seq_apply (x : IntroM Unit) (f : Unit → IntroM Unit)
    (o : Nat → Bool) (s : IntroSt) :
    (x >>= f) o s = (match x o s with
      | (Except.ok _, s1) => f () o s1
      | (Except.error _, s1) => (Except.error (), s1)) := by
  have hx : (x >>= f) o s = IntroM.bindM x f o s := rfl
  rw [hx]
  unfold IntroM.bindM
  rcases x o s with ⟨r, s1⟩
  cases r with
  | ok a => cases a; rfl
  | error e => cases e; rfl

theorem inert_tryStep : InertM tryStep := by
  intro o s
  constructor <;> rfl

theorem inert_pure : InertM (pure ()) := by
  intro o s
  constructor <;> rfl

theorem inert_seq {x : IntroM Unit} {f : Unit → IntroM Unit}
    (hx : InertM x) (hf : InertM (f ())) : InertM (x >>= f) := by
  intro o s
  rw [IntroM_seq_apply]
  rcases hres : x o s with ⟨r, s1⟩
  have h1 : s1.live = s.live ∧ s1.sent = s.sent := by
    have h := hx o s
    rw [hres] at h
    exact h
  cases r with
  | ok a =>
    cases a
    have h2 := hf o s1
    exact ⟨h2.1.trans h1.1, h2.2.trans h1.2⟩
  | error e => exact h1

theorem inert_listIter {α : Type} {f : α → IntroM Unit}
    (hf : ∀ a, InertM (f a)) : ∀ l : List α, InertM (listIter f l) := by
  intro l
  induction l with
  | nil => exact inert_pure
  | cons a rest ih => exact inert_seq (hf a) ih

theorem inert_methodAllocs {M : Type} (m : NihDBusMethod M) :
    InertM (methodAllocs m) := by
  unfold methodAllocs
  exact inert_seq inert_tryStep
    (inert_seq (inert_listIter (fun _ => inert_tryStep) m.args) inert_tryStep)

theorem inert_signalAllocs (sg : NihDBusSignal) : InertM (signalAllocs sg) := by
  unfold signalAllocs
  exact inert_seq inert_tryStep
    (inert_seq (inert_listIter (fun _ => inert_tryStep) sg.args) inert_tryStep)

theorem inert_ifaceAllocs {M : Type} (i : NihDBusInterface M) :
    InertM (ifaceAllocs i) := by
  unfold ifaceAllocs
  exact inert_seq inert_tryStep
    (inert_seq (inert_listIter inert_methodAllocs i.methods)
      (inert_seq (inert_listIter inert_signalAllocs i.signals)
        (inert_seq (inert_listIter (fun _ => inert_tryStep) i.properties)
          inert_tryStep)))

theorem total_tryStep : TotalM tryStep := by
  intro o s ho
  simp [tryStep, ho]

theorem total_pure : TotalM (pure ()) := by
  intro o s ho
  rfl

theorem total_seq {x : IntroM Unit} {f : Unit → IntroM Unit}
    (hx : TotalM x) (hf : TotalM (f ())) : TotalM (x >>= f) := by
  intro o s ho
  rw [IntroM_seq_apply]
  rcases hres : x o s with ⟨r, s1⟩
  have h1 := hx o s ho
  rw [hres] at h1
  simp only at h1
  subst h1
  exact hf o s1 ho

theorem total_listIter {α : Type} {f : α → IntroM Unit}
    (hf : ∀ a, TotalM (f a)) : ∀ l : List α, TotalM (listIter f l) := by
  intro l
  induction l with
  | nil => exact total_pure
  | cons a rest ih => exact total_seq (hf a) ih

theorem total_methodAllocs {M : Type} (m : NihDBusMethod M) :
    TotalM (methodAllocs m) := by
  unfold methodAllocs
  exact total_seq total_tryStep
    (total_seq (total_listIter (fun _ => total_tryStep) m.args) total_tryStep)

theorem total_signalAllocs (sg : NihDBusSignal) : TotalM (signalAllocs sg) := by
  unfold signalAllocs
  exact total_seq total_tryStep
    (total_seq (total_listIter (fun _ => total_tryStep) sg.args) total_tryStep)

theorem total_ifaceAllocs {M : Type} (i : NihDBusInterface M) :
    TotalM (ifaceAllocs i) := by
  unfold ifaceAllocs
  exact total_seq total_tryStep
    (total_seq (total_listIter total_methodAllocs i.methods)
      (total_seq (total_listIter total_signalAllocs i.signals)
        (total_seq (total_listIter (fun _ => total_tryStep) i.properties)
          total_tryStep)))

theorem seq_pure (f : Unit → IntroM Unit) (o : Nat → Bool) (s : IntroSt) :
    (pure () >>= f) o s = f () o s := rfl

theorem seq_acq (r : IRes) (f : Unit → IntroM Unit) (o : Nat → Bool) (s : IntroSt) :
    (acqRes r >>= f) o s = f () o { s with live := r :: s.live } := rfl

theorem seq_rel (r : IRes) (f : Unit → IntroM Unit) (o : Nat → Bool) (s : IntroSt) :
    (relRes r >>= f) o s = f () o { s with live := s.live.erase r } := rfl

theorem seq_markSent (segs : List XmlSeg) (f : Unit → IntroM Unit)
    (o : Nat → Bool) (s : IntroSt) :
    (markSent segs >>= f) o s = f () o { s with sent := some segs } := rfl

theorem seq_tryStep (f : Unit → IntroM Unit) (o : Nat → Bool) (s : IntroSt) :
    (tryStep >>= f) o s =
      if o s.n = true then f () o { s with n := s.n + 1 }
      else (Except.error (), { s with n := s.n + 1 }) := by
  by_cases h : o s.n = true
  · rw [if_pos h, IntroM_seq_apply]
    simp [tryStep, h]
  · rw [if_neg h, IntroM_seq_apply]
    simp [tryStep, h]

theorem seq_strcat (f : Unit → IntroM Unit) (o : Nat → Bool) (s : IntroSt) :
    (strcatStep >>= f) o s =
      if o s.n = true then f () o { s with n := s.n + 1 }
      else (Except.error (), { s with n := s.n + 1 }) :=
  seq_tryStep f o s

theorem seq_any_ok {c : IntroM Unit} {f : Unit → IntroM Unit} {o : Nat → Bool}
    {s s1 : IntroSt} (h : c o s = (Except.ok (), s1)) :
    (c >>= f) o s = f () o s1 := by
  rw [IntroM_seq_apply, h]

theorem seq_any_error {c : IntroM Unit} {f : Unit → IntroM Unit} {o : Nat → Bool}
    {s s1 : IntroSt} (h : c o s = (Except.error (), s1)) :
    (c >>= f) o s = (Except.error (), s1) := by
  rw [IntroM_seq_apply, h]

theorem introCleanup_live (s : IntroSt) :
    (introCleanup s).live =
      ((s.live.erase IRes.reply).erase IRes.children).erase IRes.xml := rfl

theorem introCleanup_sent (s : IntroSt) : (introCleanup s).sent = s.sent := rfl

/-- Case split across an inert sub-computation within a sequence. -/
theorem chunk_cases_inert (c : IntroM Unit) (hc : InertM c)
    (f : Unit → IntroM Unit) (o : Nat → Bool) (s : IntroSt)
    (P : Except Unit Unit × IntroSt → Prop)
    (hok : ∀ s1, s1.live = s.live → s1.sent = s.sent → P (f () o s1))
    (herr : ∀ s1, s1.live = s.live → s1.sent = s.sent →
      P (Except.error (), s1)) :
    P ((c >>= f) o s) := by
  rcases hres : c o s with ⟨r, s1⟩
  have h1 := hc o s
  rw [hres] at h1
  cases r with
  | ok a =>
    cases a
    rw [seq_any_ok hres]
    exact hok s1 h1.1 h1.2
  | error e =>
    cases e
    rw [seq_any_error hres]
    exact herr s1 h1.1 h1.2

/-- Outcome of the introspection handler from the
dbus_connection_list_registered call onward, entered with the xml string
live and nothing sent: either everything succeeds and the reply is recorded
with all resources released, or an allocation fails, the error label clears
everything live, and nothing was sent. -/
theorem introTail_run {M : Type} (obj : NihDBusObject M)
    (children : List String) (o : Nat → Bool) (s : IntroSt)
    (hl : s.live = [IRes.xml]) (hs : s.sent = none) :
    IntroDisj (introspectSegs obj children) ((do
      tryStep
      acqRes IRes.children
      listIter (fun _ => strcatStep) children
      strcatStep
      relRes IRes.children
      tryStep
      acqRes IRes.reply
      tryStep
      tryStep
      markSent (introspectSegs obj children)
      relRes IRes.reply
      relRes IRes.xml) o s) := by
  simp only [seq_tryStep, seq_strcat, seq_acq, seq_rel, seq_markSent, seq_pure]
  by_cases h1 : o s.n = true
  case neg =>
    rw [if_neg h1]
    refine Or.inr ⟨_, rfl, ?_, ?_⟩
    · rw [introCleanup_live, hl]
      rfl
    · exact hs
  rw [if_pos h1]
  refine chunk_cases_inert _ (inert_listIter (fun _ => inert_tryStep) children)
    _ o _ (IntroDisj (introspectSegs obj children)) ?_ ?_
  · intro s2 hl2 hs2
    have hK : s2.live = IRes.children :: s.live := hl2
    rw [hl] at hK
    have hS : s2.sent = none := hs2.trans hs
    simp only [seq_tryStep, seq_strcat, seq_acq, seq_rel, seq_markSent, seq_pure]
    by_cases h2 : o s2.n = true
    case neg =>
      rw [if_neg h2]
      refine Or.inr ⟨_, rfl, ?_, ?_⟩
      · rw [introCleanup_live, hK]
        rfl
      · exact hS
    rw [if_pos h2]
    by_cases h3 : o (s2.n + 1) = true
    case neg =>
      rw [if_neg h3]
      refine Or.inr ⟨_, rfl, ?_, ?_⟩
      · rw [introCleanup_live, hK]
        rfl
      · exact hS
    rw [if_pos h3]
    by_cases h4 : o (s2.n + 1 + 1) = true
    case neg =>
      rw [if_neg h4]
      refine Or.inr ⟨_, rfl, ?_, ?_⟩
      · rw [introCleanup_live, hK]
        rfl
      · exact hS
    rw [if_pos h4]
    by_cases h5 : o (s2.n + 1 + 1 + 1) = true
    case neg =>
      rw [if_neg h5]
      refine Or.inr ⟨_, rfl, ?_, ?_⟩
      · rw [introCleanup_live, hK]
        rfl
      · exact hS
    rw [if_pos h5]
    refine Or.inl ⟨_, rfl, ?_, rfl⟩
    rw [hK]
    rfl
  · intro s2 hl2 hs2
    have hK : s2.live = IRes.children :: s.live := hl2
    rw [hl] at hK
    have hS : s2.sent = none := hs2.trans hs
    refine Or.inr ⟨s2, rfl, ?_, hS⟩
    rw [introCleanup_live, hK]
    rfl

/-- Outcome of the whole introspection body from a fresh state. -/
theorem introspectBody_run {M : Type} (obj : NihDBusObject M)
    (children : List String) (o : Nat → Bool) (n0 : Nat) :
    IntroDisj (introspectSegs obj children)
      (introspectBody obj children o ⟨n0, [], none⟩) := by
  unfold introspectBody
  simp only [seq_tryStep, seq_strcat, seq_acq, seq_rel, seq_markSent, seq_pure]
  by_cases h1 : o n0 = true
  case neg =>
    rw [if_neg h1]
    exact Or.inr ⟨_, rfl, rfl, rfl⟩
  rw [if_pos h1]
  by_cases h2 : o (n0 + 1) = true
  case neg =>
    rw [if_neg h2]
    exact Or.inr ⟨_, rfl, rfl, rfl⟩
  rw [if_pos h2]
  by_cases h3 : o (n0 + 1 + 1) = true
  case neg =>
    rw [if_neg h3]
    exact Or.inr ⟨_, rfl, rfl, rfl⟩
  rw [if_pos h3]
  refine chunk_cases_inert _ (inert_listIter inert_ifaceAllocs obj.interfaces)
    _ o _ (IntroDisj (introspectSegs obj children)) ?_ ?_
  · intro s1 hl1 hs1
    have hK : s1.live = [IRes.xml] := hl1
    have hS : s1.sent = none := hs1
    by_cases hp : haveProps obj = true
    · rw [if_pos hp]
      simp only [seq_strcat]
      by_cases h4 : o s1.n = true
      case neg =>
        rw [if_neg h4]
        refine Or.inr ⟨_, rfl, ?_, ?_⟩
        · rw [introCleanup_live, hK]
          rfl
        · exact hS
      rw [if_pos h4]
      exact introTail_run obj children o _ hK hS
    · rw [if_neg hp]
      exact introTail_run obj children o s1 hK hS
  · intro s1 hl1 hs1
    have hK : s1.live = [IRes.xml] := hl1
    have hS : s1.sent = none := hs1
    refine Or.inr ⟨s1, rfl, ?_, hS⟩
    rw [introCleanup_live, hK]
    rfl

/-- Case step across a sub-computation that cannot fail under an all-true
oracle. -/
theorem chunk_ok (c : IntroM Unit) (hc : TotalM c) (f : Unit → IntroM Unit)
    (o : Nat → Bool) (s : IntroSt) (ho : ∀ k, o k = true)
    (P : Except Unit Unit × IntroSt → Prop)
    (hok : ∀ s1, P (f () o s1)) :
    P ((c >>= f) o s) := by
  rcases hres : c o s with ⟨r, s1⟩
  have h1 := hc o s ho
  rw [hres] at h1
  have hr : r = Except.ok () := h1
  subst hr
  rw [seq_any_ok hres]
  exact hok s1

/-- The introspection body succeeds whenever every allocation succeeds. -/
theorem introspectBody_ok {M : Type} (obj : NihDBusObject M)
    (children : List String) (o : Nat → Bool) (n0 : Nat)
    (ho : ∀ k, o k = true) :
    (introspectBody obj children o ⟨n0, [], none⟩).1 = Except.ok () := by
  unfold introspectBody
  simp only [seq_tryStep, seq_strcat, seq_acq, seq_rel, seq_markSent, seq_pure,
    ho, if_true]
  refine chunk_ok _ (total_listIter total_ifaceAllocs obj.interfaces) _ o _ ho
    (fun res => res.1 = Except.ok ()) ?_
  intro s1
  by_cases hp : haveProps obj = true
  · rw [if_pos hp]
    simp only [seq_tryStep, seq_strcat, seq_acq, seq_rel, seq_markSent,
      seq_pure, ho, if_true]
    refine chunk_ok _ (total_listIter (fun _ => total_tryStep) children) _ o _
      ho (fun res => res.1 = Except.ok ()) ?_
    intro s2
    simp only [seq_tryStep, seq_strcat, seq_acq, seq_rel, seq_markSent,
      seq_pure, ho, if_true]
    rfl
  · rw [if_neg hp]
    simp only [seq_tryStep, seq_strcat, seq_acq, seq_rel, seq_markSent,
      seq_pure, ho, if_true]
    refine chunk_ok _ (total_listIter (fun _ => total_tryStep) children) _ o _
      ho (fun res => res.1 = Except.ok ()) ?_
    intro s2
    simp only [seq_tryStep, seq_strcat, seq_acq, seq_rel, seq_markSent,
      seq_pure, ho, if_true]
    rfl

/-- C9: the introspection handler returns HANDLED or NEED_MEMORY; on any
allocation failure it returns NEED_MEMORY, no reply is sent, and nothing it
built stays live (the error label releases every partially built string,
partial reply and child list); the reply is recorded exactly when the whole
document was assembled, and when every allocation succeeds it is HANDLED. -/
theorem nih_dbus_object_introspect_spec {M : Type} (o : Nat → Bool)
    (obj : NihDBusObject M) (children : List String) :
    (nih_dbus_object_introspect o obj children).2.live = []
    ∧ ((nih_dbus_object_introspect o obj children).1 = DBusHandlerResult.handled
        ∨ (nih_dbus_object_introspect o obj children).1
            = DBusHandlerResult.needMemory)
    ∧ ((nih_dbus_object_introspect o obj children).1
          = DBusHandlerResult.needMemory →
        (nih_dbus_object_introspect o obj children).2.sent = none)
    ∧ ((nih_dbus_object_introspect o obj children).1 = DBusHandlerResult.handled →
        (nih_dbus_object_introspect o obj children).2.sent
          = some (introspectSegs obj children))
    ∧ ((∀ k, o k = true) →
        (nih_dbus_object_introspect o obj children).1
          = DBusHandlerResult.handled) := by
  have hrun := introspectBody_run obj children o 0
  unfold nih_dbus_object_introspect
  rcases hrun with ⟨s1, heq, hl, hsent⟩ | ⟨s1, heq, hl, hsent⟩
  · rw [heq]
    exact ⟨hl, Or.inl rfl, fun hcon => DBusHandlerResult.noConfusion hcon,
      fun _ => hsent, fun _ => rfl⟩
  · rw [heq]
    refine ⟨hl, Or.inr rfl, fun _ => (introCleanup_sent s1).trans hsent,
      fun hcon => DBusHandlerResult.noConfusion hcon, ?_⟩
    intro ho
    have hok := introspectBody_ok obj children o 0 ho
    rw [heq] at hok
    exact Except.noConfusion hok

/-- Witness for the introspection failure-handling theorem: all allocations
succeed on the example object. -/
theorem nih_dbus_object_introspect_spec_witness :
    (nih_dbus_object_introspect (fun _ => true) exampleObj []).1
      = DBusHandlerResult.handled :=
  (nih_dbus_object_introspect_spec (fun _ => true) exampleObj []).2.2.2.2
    (fun _ => rfl)

/-- Under an all-true oracle the introspection handler returns HANDLED and
records the full reply. -/
theorem introspect_ok_all {M : Type} (o : Nat → Bool) (obj : NihDBusObject M)
    (children : List String) (ho : ∀ k, o k = true) :
    (nih_dbus_object_introspect o obj children).1 = DBusHandlerResult.handled
    ∧ (nih_dbus_object_introspect o obj children).2.sent
        = some (introspectSegs obj children) := by
  rcases introspectBody_run obj children o 0 with ⟨s1, heq, _, hsent⟩ | ⟨s1, heq, _, _⟩
  · unfold nih_dbus_object_introspect
    rw [heq]
    exact ⟨rfl, hsent⟩
  · exfalso
    have hok := introspectBody_ok obj children o 0 ho
    rw [heq] at hok
    exact Except.noConfusion hok

/-- The nested dispatch loops agree with the first matching (interface,
method) pair in table order. -/
theorem dispatchTable_matches {M : Type}
    (run : M → NihDBusMessage → DBusHandlerResult) (allocOk : Bool)
    (conn : Nat) (msg : DMessage) (l : List (NihDBusInterface M)) :
    dispatchTable run allocOk conn msg l =
      match firstMatch msg l with
      | some (iname, m) => invokeMarshaller run allocOk conn msg iname m
      | none => (DBusHandlerResult.notYetHandled, []) := by
  induction l with
  | nil => rfl
  | cons i rest ih =>
    simp only [dispatchTable, firstMatch]
    cases h : findMethodIn msg i.name i.methods with
    | none => simp [h, ih]
    | some m => simp [h]

/-- C3: messages are handled in order: an Introspect method call on the
standard Introspectable interface produces the introspection reply and
HANDLED (given allocations succeed); a Get/Set/GetAll method call on the
standard Properties interface returns NOT_YET_HANDLED untouched; otherwise
the first matching (interface, method) pair in table order has its
marshaller run on a fresh wrapper holding (connection, message), bracketed
by the message reference and the wrapper release, with the marshaller's
result returned; and with no match NOT_YET_HANDLED is returned. -/
theorem nih_dbus_object_message_spec {M : Type}
    (run : M → NihDBusMessage → DBusHandlerResult) (o : Nat → Bool)
    (obj : NihDBusObject M) (children : List String) (msg : DMessage) :
    (dbus_message_is_method_call msg DBUS_INTERFACE_INTROSPECTABLE "Introspect"
        = true →
      (∀ k, o k = true) →
      nih_dbus_object_message run o true obj children msg
        = (DBusHandlerResult.handled,
           [ObjEv.sentIntrospect (introspectSegs obj children)]))
    ∧ (∀ mem, mem = "Get" ∨ mem = "Set" ∨ mem = "GetAll" →
        dbus_message_is_method_call msg DBUS_INTERFACE_PROPERTIES mem = true →
        nih_dbus_object_message run o true obj children msg
          = (DBusHandlerResult.notYetHandled, []))
    ∧ (dbus_message_is_method_call msg DBUS_INTERFACE_INTROSPECTABLE "Introspect"
          = false →
       dbus_message_is_method_call msg DBUS_INTERFACE_PROPERTIES "Get" = false →
       dbus_message_is_method_call msg DBUS_INTERFACE_PROPERTIES "Set" = false →
       dbus_message_is_method_call msg DBUS_INTERFACE_PROPERTIES "GetAll" = false →
       nih_dbus_object_message run o true obj children msg
         = (match firstMatch msg obj.interfaces with
            | some (iname, m) =>
              (run m.marshaller { conn := obj.conn, message := msg },
               [ObjEv.msgRef msg,
                ObjEv.marshal iname m.name { conn := obj.conn, message := msg },
                ObjEv.msgUnref msg,
                ObjEv.freeWrapper { conn := obj.conn, message := msg }])
            | none => (DBusHandlerResult.notYetHandled, []))) := by
  refine ⟨?_, ?_, ?_⟩
  · intro hintro ho
    have h := introspect_ok_all o obj children ho
    unfold nih_dbus_object_message
    rw [if_pos hintro]
    rcases hres : nih_dbus_object_introspect o obj children with ⟨r, st⟩
    rw [hres] at h
    have h1 : r = DBusHandlerResult.handled := h.1
    have h2 : st.sent = some (introspectSegs obj children) := h.2
    show (r, (match st.sent with
      | some segs => [ObjEv.sentIntrospect segs]
      | none => [])) = _
    rw [h1, h2]
  · intro mem hmem hp
    have hfacts := hp
    simp only [dbus_message_is_method_call, Bool.and_eq_true, beq_iff_eq]
      at hfacts
    have hiface : msg.iface = some DBUS_INTERFACE_PROPERTIES := hfacts.1.2
    have hmember : msg.member = some mem := hfacts.2
    have hni : dbus_message_is_method_call msg DBUS_INTERFACE_INTROSPECTABLE
        "Introspect" = false := by
      have hne : (some DBUS_INTERFACE_PROPERTIES
          == some DBUS_INTERFACE_INTROSPECTABLE) = false := by decide
      simp [dbus_message_is_method_call, hiface, hne]
    unfold nih_dbus_object_message
    rw [if_neg (by simp [hni])]
    rcases hmem with rfl | rfl | rfl
    · rw [if_pos hp]
    · have hGet : dbus_message_is_method_call msg DBUS_INTERFACE_PROPERTIES
          "Get" = false := by
        have hne : ((some "Set" : Option String) == some "Get") = false := by
          decide
        simp [dbus_message_is_method_call, hmember, hne]
      rw [if_neg (by simp [hGet]), if_pos hp]
    · have hGet : dbus_message_is_method_call msg DBUS_INTERFACE_PROPERTIES
          "Get" = false := by
        have hne : ((some "GetAll" : Option String) == some "Get") = false := by
          decide
        simp [dbus_message_is_method_call, hmember, hne]
      have hSet : dbus_message_is_method_call msg DBUS_INTERFACE_PROPERTIES
          "Set" = false := by
        have hne : ((some "GetAll" : Option String) == some "Set") = false := by
          decide
        simp [dbus_message_is_method_call, hmember, hne]
      rw [if_neg (by simp [hGet]), if_neg (by simp [hSet]), if_pos hp]
  · intro h1 h2 h3 h4
    unfold nih_dbus_object_message
    rw [if_neg (by simp [h1]), if_neg (by simp [h2]), if_neg (by simp [h3]),
      if_neg (by simp [h4]), dispatchTable_matches]
    cases hfm : firstMatch msg obj.interfaces with
    | none => rfl
    | some p =>
      obtain ⟨iname, m⟩ := p
      simp [invokeMarshaller]

/-- Witness for the dispatch theorem: the example method call reaches its
marshaller with the wrapper and ref/unref bracketing. -/
theorem nih_dbus_object_message_spec_witness :
    nih_dbus_object_message exampleRun (fun _ => true) true exampleObj []
        exampleCall
      = (DBusHandlerResult.handled,
         [ObjEv.msgRef exampleCall,
          ObjEv.marshal "com.example.Test" "Frob"
            { conn := 3, message := exampleCall },
          ObjEv.msgUnref exampleCall,
          ObjEv.freeWrapper { conn := 3, message := exampleCall }]) := by
  have h := (nih_dbus_object_message_spec exampleRun (fun _ => true) exampleObj
      [] exampleCall).2.2 (by decide) (by decide) (by decide) (by decide)
  rw [h]
  rfl

theorem get?_snoc {α : Type} (l : List α) (x : α) (i : Nat) :
    (l ++ [x]).get? i =
      if i < l.length then l.get? i
      else if i = l.length then some x else none := by
  by_cases h : i < l.length
  · rw [if_pos h, List.get?_append h]
  · rw [if_neg h]
    have hle : l.length ≤ i := Nat.le_of_not_lt h
    rw [List.get?_append_right hle]
    by_cases he : i = l.length
    · rw [if_pos he, he]
      simp
    · rw [if_neg he]
      have : 0 < i - l.length := by omega
      cases hk : i - l.length with
      | zero => omega
      | succ k => simp

theorem get?_some_lt {α : Type} {l : List α} {i : Nat} {a : α}
    (h : l.get? i = some a) : i < l.length := by
  by_contra hc
  rw [List.get?_len_le (Nat.le_of_not_lt hc)] at h
  exact Option.noConfusion h

/-- Adding a watch preserves the bridge invariant. -/
theorem WInv_add (r w en : Bool) (s : WatchSys) (h : WInv s) :
    WInv (nih_dbus_add_watch r w en s) := by
  obtain ⟨hnd, hbound, hinj, hcount, hmem⟩ := h
  have hid0 : s.nextId ∉ s.active := by
    intro hin
    rcases hmem _ hin with ⟨i, rec, hget, hdata⟩
    exact absurd (hbound i rec _ hget hdata) (Nat.lt_irrefl _)
  have hact : (nih_dbus_add_watch r w en s).active =
      if en then s.active ++ [s.nextId] else s.active := by
    by_cases he : en
    · simp [nih_dbus_add_watch, he]
    · simp only [nih_dbus_add_watch, nihListRemove, he, if_false, Bool.false_eq_true]
      rw [List.erase_append_right _ hid0]
      simp
  have hwat : (nih_dbus_add_watch r w en s).watches =
      s.watches ++ [{ enabled := en, events := nihWatchEvents r w,
                      data := some s.nextId }] := rfl
  have hnext : (nih_dbus_add_watch r w en s).nextId = s.nextId + 1 := rfl
  refine ⟨?_, ?_, ?_, ?_, ?_⟩
  · rw [hact]
    by_cases he : en
    · rw [if_pos he, List.nodup_append]
      exact ⟨hnd, List.nodup_singleton _,
        fun a ha hb => hid0 (by simpa using (List.mem_singleton.mp hb) ▸ ha)⟩
    · rw [if_neg he]
      exact hnd
  · intro i rec id hget hdata
    rw [hwat, get?_snoc] at hget
    rw [hnext]
    split at hget
    · exact Nat.lt_succ_of_lt (hbound i rec id hget hdata)
    · split at hget
      · cases hget
        cases hdata
        exact Nat.lt_succ_self _
      · exact Option.noConfusion hget
  · intro i j ri rj id hgi hgj hdi hdj
    rw [hwat, get?_snoc] at hgi hgj
    split at hgi
    · split at hgj
      · exact hinj i j ri rj id hgi hgj hdi hdj
      · split at hgj
        · exfalso
          cases hgj
          cases hdj
          exact absurd (hbound i ri _ hgi hdi) (Nat.lt_irrefl _)
        · exact Option.noConfusion hgj
    · split at hgi
      · cases hgi
        cases hdi
        split at hgj
        · exfalso
          exact absurd (hbound j rj _ hgj hdj) (Nat.lt_irrefl _)
        · split at hgj
          · omega
          · exact Option.noConfusion hgj
      · exact Option.noConfusion hgi
  · intro i rec id hget hdata
    rw [hwat, get?_snoc] at hget
    rw [hact]
    split at hget
    · have hlt := hbound i rec id hget hdata
      have hcnt := hcount i rec id hget hdata
      by_cases he : en
      · rw [if_pos he, List.count_append]
        have : List.count id [s.nextId] = 0 := by
          simp [List.count_singleton]
          omega
        rw [this] at *
        omega
      · rw [if_neg he]
        exact hcnt
    · split at hget
      · cases hget
        cases hdata
        have hzero : s.active.count s.nextId = 0 :=
          List.count_eq_zero.mpr hid0
        by_cases he : en
        · rw [if_pos he, List.count_append, hzero]
          simp [he, List.count_singleton]
        · rw [if_neg he, hzero]
          simp [he]
      · exact Option.noConfusion hget
  · intro id hid
    rw [hact] at hid
    have lift : ∀ idx, idx ∈ s.active →
        ∃ i rec, (nih_dbus_add_watch r w en s).watches.get? i = some rec
          ∧ rec.data = some idx := by
      intro idx hidx
      rcases hmem idx hidx with ⟨i, rec, hget, hdata⟩
      refine ⟨i, rec, ?_, hdata⟩
      rw [hwat, List.get?_append (get?_some_lt hget)]
      exact hget
    by_cases he : en
    · rw [if_pos he] at hid
      rcases List.mem_append.mp hid with hid | hid
      · exact lift id hid
      · have : id = s.nextId := List.mem_singleton.mp hid
        subst this
        refine ⟨s.watches.length,
          { enabled := en, events := nihWatchEvents r w,
            data := some s.nextId }, ?_, rfl⟩
        rw [hwat, get?_snoc]
        simp
    · rw [if_neg he] at hid
      exact lift id hid

theorem toggled_eq (i : Nat) (b : Bool) (s : WatchSys) (rec : WatchRec)
    (id : Nat) (hget : s.watches.get? i = some rec)
    (hdata : rec.data = some id) :
    nih_dbus_watch_toggled i b s =
      { watches := s.watches.set i { rec with enabled := b }
        active := if b then nihListAdd s.active id
                  else nihListRemove s.active id
        nextId := s.nextId } := by
  unfold nih_dbus_watch_toggled
  split
  · rename_i heq
    rw [hget] at heq
    exact Option.noConfusion heq
  · rename_i rec2 heq
    rw [hget] at heq
    cases Option.some.inj heq
    split
    · rename_i heq2
      rw [hdata] at heq2
      exact Option.noConfusion heq2
    · rename_i id2 heq2
      rw [hdata] at heq2
      cases Option.some.inj heq2
      rfl

theorem removed_eq (i : Nat) (s : WatchSys) (rec : WatchRec) (id : Nat)
    (hget : s.watches.get? i = some rec) (hdata : rec.data = some id) :
    nih_dbus_remove_watch i s =
      { watches := s.watches.set i { rec with data := none }
        active := nihListRemove s.active id
        nextId := s.nextId } := by
  unfold nih_dbus_remove_watch
  split
  · rename_i heq
    rw [hget] at heq
    exact Option.noConfusion heq
  · rename_i rec2 heq
    rw [hget] at heq
    cases Option.some.inj heq
    split
    · rename_i heq2
      rw [hdata] at heq2
      exact Option.noConfusion heq2
    · rename_i id2 heq2
      rw [hdata] at heq2
      cases Option.some.inj heq2
      rfl

theorem toggled_none (i : Nat) (b : Bool) (s : WatchSys)
    (h : s.watches.get? i = none) : nih_dbus_watch_toggled i b s = s := by
  unfold nih_dbus_watch_toggled
  split
  · rfl
  · rename_i rec heq
    rw [h] at heq
    exact Option.noConfusion heq

theorem toggled_data_none (i : Nat) (b : Bool) (s : WatchSys) (rec : WatchRec)
    (hget : s.watches.get? i = some rec) (hd : rec.data = none) :
    nih_dbus_watch_toggled i b s = s := by
  unfold nih_dbus_watch_toggled
  split
  · rfl
  · rename_i rec2 heq
    rw [hget] at heq
    cases Option.some.inj heq
    split
    · rfl
    · rename_i id2 heq2
      rw [hd] at heq2
      exact Option.noConfusion heq2

theorem removed_none (i : Nat) (s : WatchSys)
    (h : s.watches.get? i = none) : nih_dbus_remove_watch i s = s := by
  unfold nih_dbus_remove_watch
  split
  · rfl
  · rename_i rec heq
    rw [h] at heq
    exact Option.noConfusion heq

theorem removed_data_none (i : Nat) (s : WatchSys) (rec : WatchRec)
    (hget : s.watches.get? i = some rec) (hd : rec.data = none) :
    nih_dbus_remove_watch i s = s := by
  unfold nih_dbus_remove_watch
  split
  · rfl
  · rename_i rec2 heq
    rw [hget] at heq
    cases Option.some.inj heq
    split
    · rfl
    · rename_i id2 heq2
      rw [hd] at heq2
      exact Option.noConfusion heq2

/-- Toggling a watch preserves the bridge invariant. -/
theorem WInv_toggle (i : Nat) (b : Bool) (s : WatchSys) (h : WInv s) :
    WInv (nih_dbus_watch_toggled i b s) := by
  cases hget : s.watches.get? i with
  | none =>
    rw [toggled_none i b s hget]
    exact h
  | some rec =>
    cases hdata : rec.data with
    | none =>
      rw [toggled_data_none i b s rec hget hdata]
      exact h
    | some id =>
      rw [toggled_eq i b s rec id hget hdata]
      obtain ⟨hnd, hbound, hinj, hcount, hmem⟩ := h
      have hlen : i < s.watches.length := get?_some_lt hget
      have hcnt := hcount i rec id hget hdata
      have hle : s.active.count id ≤ 1 := by
        by_cases hrec : rec.enabled <;> simp [hrec] at hcnt <;> omega
      have hset_eq : (s.watches.set i { rec with enabled := b }).get? i
          = some { rec with enabled := b } :=
        List.get?_set_eq_of_lt _ hlen
      have hset_ne : ∀ j, j ≠ i →
          (s.watches.set i { rec with enabled := b }).get? j
            = s.watches.get? j :=
        fun j hne => List.get?_set_ne _ _ (fun hh => hne hh.symm)
      have hidne : ∀ j rj idj, j ≠ i → s.watches.get? j = some rj →
          rj.data = some idj → idj ≠ id := by
        intro j rj idj hne hg hd heq
        exact hne (hinj j i rj rec id hg hget (by rw [hd, heq]) hdata)
      have hcnt_other : ∀ idq, idq ≠ id →
          (if b then nihListAdd s.active id
           else nihListRemove s.active id).count idq
            = s.active.count idq := by
        intro idq hne
        by_cases hb : b
        · rw [if_pos hb]
          unfold nihListAdd
          rw [List.count_append, List.count_erase_of_ne hne]
          simp [List.count_cons, hne]
        · rw [if_neg hb]
          unfold nihListRemove
          rw [List.count_erase_of_ne hne]
      have hcnt_id : (if b then nihListAdd s.active id
          else nihListRemove s.active id).count id
            = if b then 1 else 0 := by
        by_cases hb : b
        · rw [if_pos hb, if_pos hb]
          unfold nihListAdd
          rw [List.count_append, List.count_erase_self]
          simp
          omega
        · rw [if_neg hb, if_neg hb]
          unfold nihListRemove
          rw [List.count_erase_self]
          omega
      refine ⟨?_, ?_, ?_, ?_, ?_⟩
      · show (if b then nihListAdd s.active id
            else nihListRemove s.active id).Nodup
        by_cases hb : b
        · rw [if_pos hb]
          unfold nihListAdd
          rw [List.nodup_append]
          refine ⟨hnd.erase _, List.nodup_singleton _, ?_⟩
          intro a ha hb2
          rw [List.mem_singleton.mp hb2] at ha
          exact hnd.not_mem_erase ha
        · rw [if_neg hb]
          exact hnd.erase _
      · show ∀ j rj idj,
            (s.watches.set i { rec with enabled := b }).get? j = some rj →
            rj.data = some idj → idj < s.nextId
        intro j rj idj hg hd
        by_cases hj : j = i
        · subst hj
          rw [hset_eq] at hg
          cases Option.some.inj hg
          exact hbound j rec idj hget hd
        · rw [hset_ne j hj] at hg
          exact hbound j rj idj hg hd
      · show ∀ j k rj rk idq,
            (s.watches.set i { rec with enabled := b }).get? j = some rj →
            (s.watches.set i { rec with enabled := b }).get? k = some rk →
            rj.data = some idq → rk.data = some idq → j = k
        intro j k rj rk idq hgj hgk hdj hdk
        by_cases hj : j = i <;> by_cases hk : k = i
        · omega
        · subst hj
          rw [hset_eq] at hgj
          cases Option.some.inj hgj
          rw [hset_ne k hk] at hgk
          exact hinj j k rec rk idq hget hgk hdj hdk
        · subst hk
          rw [hset_eq] at hgk
          cases Option.some.inj hgk
          rw [hset_ne j hj] at hgj
          exact hinj j k rj rec idq hgj hget hdj hdk
        · rw [hset_ne j hj] at hgj
          rw [hset_ne k hk] at hgk
          exact hinj j k rj rk idq hgj hgk hdj hdk
      · show ∀ j rj idj,
            (s.watches.set i { rec with enabled := b }).get? j = some rj →
            rj.data = some idj →
            (if b then nihListAdd s.active id
             else nihListRemove s.active id).count idj
              = if rj.enabled then 1 else 0
        intro j rj idj hg hd
        by_cases hj : j = i
        · subst hj
          rw [hset_eq] at hg
          cases Option.some.inj hg
          have hid_eq : idj = id := by
            have hdd : rec.data = some idj := hd
            rw [hdata] at hdd
            exact (Option.some.inj hdd).symm
          subst hid_eq
          exact hcnt_id
        · rw [hset_ne j hj] at hg
          rw [hcnt_other idj (hidne j rj idj hj hg hd)]
          exact hcount j rj idj hg hd
      · show ∀ idq, idq ∈ (if b then nihListAdd s.active id
            else nihListRemove s.active id) →
            ∃ j rj, (s.watches.set i { rec with enabled := b }).get? j
              = some rj ∧ rj.data = some idq
        intro idq hq
        have hold : ∀ idr, idr ∈ s.active → idr ≠ id →
            ∃ j rj, (s.watches.set i { rec with enabled := b }).get? j
                = some rj ∧ rj.data = some idr := by
          intro idr hr hne
          rcases hmem idr hr with ⟨j, rj, hg, hd⟩
          by_cases hj : j = i
          · subst hj
            rw [hget] at hg
            cases Option.some.inj hg
            rw [hdata] at hd
            exact absurd (Option.some.inj hd) (fun hh => hne hh.symm)
          · exact ⟨j, rj, by rw [hset_ne j hj]; exact hg, hd⟩
        by_cases hq_id : idq = id
        · subst hq_id
          exact ⟨i, { rec with enabled := b }, hset_eq, hdata⟩
        · by_cases hb : b
          · rw [if_pos hb] at hq
            unfold nihListAdd at hq
            rcases List.mem_append.mp hq with hq | hq
            · exact hold idq (List.mem_of_mem_erase hq) hq_id
            · exact absurd (List.mem_singleton.mp hq) hq_id
          · rw [if_neg hb] at hq
            unfold nihListRemove at hq
            exact hold idq (List.mem_of_mem_erase hq) hq_id

/-- Removing a watch preserves the bridge invariant. -/
theorem WInv_remove (i : Nat) (s : WatchSys) (h : WInv s) :
    WInv (nih_dbus_remove_watch i s) := by
  cases hget : s.watches.get? i with
  | none =>
    rw [removed_none i s hget]
    exact h
  | some rec =>
    cases hdata : rec.data with
    | none =>
      rw [removed_data_none i s rec hget hdata]
      exact h
    | some id =>
      rw [removed_eq i s rec id hget hdata]
      obtain ⟨hnd, hbound, hinj, hcount, hmem⟩ := h
      have hlen : i < s.watches.length := get?_some_lt hget
      have hset_eq : (s.watches.set i { rec with data := none }).get? i
          = some { rec with data := none } :=
        List.get?_set_eq_of_lt _ hlen
      have hset_ne : ∀ j, j ≠ i →
          (s.watches.set i { rec with data := none }).get? j
            = s.watches.get? j :=
        fun j hne => List.get?_set_ne _ _ (fun hh => hne hh.symm)
      have hidne : ∀ j rj idj, j ≠ i → s.watches.get? j = some rj →
          rj.data = some idj → idj ≠ id := by
        intro j rj idj hne hg hd heq
        exact hne (hinj j i rj rec id hg hget (by rw [hd, heq]) hdata)
      refine ⟨?_, ?_, ?_, ?_, ?_⟩
      · show (nihListRemove s.active id).Nodup
        exact hnd.erase _
      · show ∀ j rj idj,
            (s.watches.set i { rec with data := none }).get? j = some rj →
            rj.data = some idj → idj < s.nextId
        intro j rj idj hg hd
        by_cases hj : j = i
        · subst hj
          rw [hset_eq] at hg
          cases Option.some.inj hg
          exact Option.noConfusion hd
        · rw [hset_ne j hj] at hg
          exact hbound j rj idj hg hd
      · show ∀ j k rj rk idq,
            (s.watches.set i { rec with data := none }).get? j = some rj →
            (s.watches.set i { rec with data := none }).get? k = some rk →
            rj.data = some idq → rk.data = some idq → j = k
        intro j k rj rk idq hgj hgk hdj hdk
        by_cases hj : j = i
        · subst hj
          rw [hset_eq] at hgj
          cases Option.some.inj hgj
          exact Option.noConfusion hdj
        · by_cases hk : k = i
          · subst hk
            rw [hset_eq] at hgk
            cases Option.some.inj hgk
            exact Option.noConfusion hdk
          · rw [hset_ne j hj] at hgj
            rw [hset_ne k hk] at hgk
            exact hinj j k rj rk idq hgj hgk hdj hdk
      · show ∀ j rj idj,
            (s.watches.set i { rec with data := none }).get? j = some rj →
            rj.data = some idj →
            (nihListRemove s.active id).count idj
              = if rj.enabled then 1 else 0
        intro j rj idj hg hd
        by_cases hj : j = i
        · subst hj
          rw [hset_eq] at hg
          cases Option.some.inj hg
          exact Option.noConfusion hd
        · rw [hset_ne j hj] at hg
          unfold nihListRemove
          rw [List.count_erase_of_ne (hidne j rj idj hj hg hd)]
          exact hcount j rj idj hg hd
      · show ∀ idq, idq ∈ nihListRemove s.active id →
            ∃ j rj, (s.watches.set i { rec with data := none }).get? j
              = some rj ∧ rj.data = some idq
        intro idq hq
        unfold nihListRemove at hq
        have hne : idq ≠ id := (hnd.mem_erase_iff.mp hq).1
        rcases hmem idq (List.mem_of_mem_erase hq) with ⟨j, rj, hg, hd⟩
        by_cases hj : j = i
        · subst hj
          rw [hget] at hg
          cases Option.some.inj hg
          rw [hdata] at hd
          exact absurd (Option.some.inj hd) (fun hh => hne hh.symm)
        · exact ⟨j, rj, by rw [hset_ne j hj]; exact hg, hd⟩

/-- One callback step preserves the bridge invariant. -/
theorem WInv_step (s : WatchSys) (op : WatchOp) (h : WInv s) :
    WInv (watchStep s op) := by
  cases op with
  | add r w en => exact WInv_add r w en s h
  | toggle i en => exact WInv_toggle i en s h
  | remove i => exact WInv_remove i s h

/-- The empty bridge state satisfies the invariant. -/
theorem WInv_init : WInv initWatchSys := by
  refine ⟨List.nodup_nil, ?_, ?_, ?_, ?_⟩
  · intro i rec id hget
    simp [initWatchSys] at hget
  · intro i j ri rj id hgi
    simp [initWatchSys] at hgi
  · intro i rec id hget
    simp [initWatchSys] at hget
  · intro id hid
    simp [initWatchSys] at hid

/-- Every state reachable by a callback sequence satisfies the invariant. -/
theorem WInv_run (ops : List WatchOp) :
    ∀ s, WInv s → WInv (runWatchOps ops s) := by
  induction ops with
  | nil => exact fun s h => h
  | cons op rest ih =>
    intro s h
    exact ih (watchStep s op) (WInv_step s op h)

/-- A toggle neither reallocates (nextId unchanged) nor changes which
NihIoWatch any watch record holds. -/
theorem toggle_retains (i : Nat) (b : Bool) (s : WatchSys) :
    (nih_dbus_watch_toggled i b s).nextId = s.nextId
    ∧ ∀ j, ((nih_dbus_watch_toggled i b s).watches.get? j).map WatchRec.data
        = (s.watches.get? j).map WatchRec.data := by
  cases hget : s.watches.get? i with
  | none =>
    rw [toggled_none i b s hget]
    exact ⟨rfl, fun j => rfl⟩
  | some rec =>
    cases hdata : rec.data with
    | none =>
      rw [toggled_data_none i b s rec hget hdata]
      exact ⟨rfl, fun j => rfl⟩
    | some id =>
      rw [toggled_eq i b s rec id hget hdata]
      refine ⟨rfl, ?_⟩
      intro j
      by_cases hj : j = i
      · subst hj
        show ((s.watches.set j { rec with enabled := b }).get? j).map
            WatchRec.data = _
        rw [List.get?_set_eq_of_lt _ (get?_some_lt hget), hget]
        rfl
      · show ((s.watches.set i { rec with enabled := b }).get? j).map
            WatchRec.data = _
        rw [List.get?_set_ne _ _ (fun hh => hj hh.symm)]

/-- Enable, disable, enable leaves the active list exactly as after the
first enable. -/
theorem toggle_roundtrip (i : Nat) (s : WatchSys) (rec : WatchRec) (id : Nat)
    (hget : s.watches.get? i = some rec) (hdata : rec.data = some id)
    (hnd : s.active.Nodup) :
    (nih_dbus_watch_toggled i true (nih_dbus_watch_toggled i false
      (nih_dbus_watch_toggled i true s))).active
      = (nih_dbus_watch_toggled i true s).active := by
  have hlen : i < s.watches.length := get?_some_lt hget
  have h1 := toggled_eq i true s rec id hget hdata
  have ha1 : (nih_dbus_watch_toggled i true s).active
      = nihListAdd s.active id := by
    rw [h1]
    simp
  have hw1 : (nih_dbus_watch_toggled i true s).watches
      = s.watches.set i { rec with enabled := true } := by
    rw [h1]
  have hget2 : (nih_dbus_watch_toggled i true s).watches.get? i
      = some { rec with enabled := true } := by
    rw [hw1]
    exact List.get?_set_eq_of_lt _ hlen
  have h2 := toggled_eq i false (nih_dbus_watch_toggled i true s)
      { rec with enabled := true } id hget2 hdata
  have ha2 : (nih_dbus_watch_toggled i false
        (nih_dbus_watch_toggled i true s)).active
      = nihListRemove (nihListAdd s.active id) id := by
    rw [h2]
    simp [ha1]
  have hw2 : (nih_dbus_watch_toggled i false
        (nih_dbus_watch_toggled i true s)).watches
      = (nih_dbus_watch_toggled i true s).watches.set i
          { rec with enabled := false } := by
    rw [h2]
  have hget3 : (nih_dbus_watch_toggled i false
        (nih_dbus_watch_toggled i true s)).watches.get? i
      = some { rec with enabled := false } := by
    rw [hw2]
    refine List.get?_set_eq_of_lt _ ?_
    simpa [hw1] using hlen
  have h3 := toggled_eq i true (nih_dbus_watch_toggled i false
      (nih_dbus_watch_toggled i true s)) { rec with enabled := false } id
      hget3 hdata
  have ha3 : (nih_dbus_watch_toggled i true (nih_dbus_watch_toggled i false
        (nih_dbus_watch_toggled i true s))).active
      = nihListAdd (nihListRemove (nihListAdd s.active id) id) id := by
    rw [h3]
    simp [ha2]
  rw [ha3, ha1]
  have hno : id ∉ s.active.erase id := hnd.not_mem_erase
  unfold nihListAdd nihListRemove
  rw [List.erase_append_right _ hno, List.erase_cons_head, List.append_nil,
    List.erase_of_not_mem hno]

/-- C7: after any sequence of add, toggle and remove callbacks from the
initial state, every live watch's io watch is in the active list exactly
once when the watch is enabled and zero times when disabled; a toggle
allocates nothing new and leaves every record's io watch in place; and the
toggle sequence enable, disable, enable leaves the active list exactly as
after the first enable. -/
theorem nih_dbus_watch_bridge_spec (ops : List WatchOp) :
    (∀ i rec id,
      (runWatchOps ops initWatchSys).watches.get? i = some rec →
      rec.data = some id →
      (runWatchOps ops initWatchSys).active.count id
        = if rec.enabled then 1 else 0)
    ∧ (∀ i b,
        (nih_dbus_watch_toggled i b (runWatchOps ops initWatchSys)).nextId
          = (runWatchOps ops initWatchSys).nextId
        ∧ ∀ j, ((nih_dbus_watch_toggled i b
              (runWatchOps ops initWatchSys)).watches.get? j).map WatchRec.data
            = ((runWatchOps ops initWatchSys).watches.get? j).map
                WatchRec.data)
    ∧ (∀ i rec id,
        (runWatchOps ops initWatchSys).watches.get? i = some rec →
        rec.data = some id →
        (nih_dbus_watch_toggled i true (nih_dbus_watch_toggled i false
          (nih_dbus_watch_toggled i true
            (runWatchOps ops initWatchSys)))).active
          = (nih_dbus_watch_toggled i true
              (runWatchOps ops initWatchSys)).active) := by
  have hinv := WInv_run ops initWatchSys WInv_init
  obtain ⟨hnd, _, _, hcount, _⟩ := hinv
  refine ⟨hcount, fun i b => toggle_retains i b _, ?_⟩
  intro i rec id hget hdata
  exact toggle_roundtrip i _ rec id hget hdata hnd

/-- Witness for the watch-bridge theorem: one enabled readable watch. -/
theorem nih_dbus_watch_bridge_spec_witness :
    (runWatchOps [WatchOp.add true false true] initWatchSys).active.count 0
      = 1 :=
  (nih_dbus_watch_bridge_spec [WatchOp.add true false true]).1 0
    { enabled := true, events := 5, data := some 0 } 0 rfl rfl

/-- Witness for the Properties-iff theorem on the example object. -/
theorem introspect_properties_iff_witness :
    XmlSeg.introspectable ∈ introspectSegs exampleObj [] :=
  (introspect_properties_iff exampleObj []).2.1

/-- Witness for the verbatim-root theorem at a root with a non-alnum byte. -/
theorem nih_dbus_path_root_verbatim_witness :
    nih_dbus_path (strBytes "/q.w") [] = strBytes "/q.w" :=
  nih_dbus_path_root_verbatim.1 (strBytes "/q.w")
